import Mathlib

/-!
Verification of the trip-itinerary generator and the map-link extractor of
`src/tools.ts` (tools `planTrip` and `generateMapLinks`).

Modelling conventions:
* JS `Date.parse` is an external builtin; a parsed date is represented by its
  result: `some t` (milliseconds since the epoch, an integer for every valid
  date) or `none` (an invalid date, whose `getTime()` is NaN).  In the source,
  NaN propagates through `end - start`, the division, `Math.max` and
  `Math.ceil`, and the generation loop `for (let i = 0; i < tripLength; ...)`
  then runs zero times (`i < NaN` is false); `numDays` reproduces exactly that.
* JS number arithmetic on date differences is modelled exactly over ℚ
  (`Math.ceil(Math.max(1, (end-start)/86400000))` becomes a rational ceiling).
* Strings are Lean `String`s; the regex engines of `generateMapLinks` are
  modelled character by character over `List Char` with JS semantics for the
  concrete patterns appearing in the source (ordered alternation with
  backtracking, greedy `\s+`/`+`, word boundary `\b`, the `i` flag applying to
  the whole pattern, global scanning that resumes after each match).  The
  ASCII fragments of `\w`, `\d`, `\s`, `[A-Z]`-under-`i` and of case folding
  are modelled; the exotic non-ASCII corners of JS regex canonicalisation
  (e.g. U+017F) are outside the model.
-/

/-! ### Character classes (JS regex, ASCII fragment) -/

/-- JS whitespace (`\s`, and the set trimmed by `String.prototype.trim`),
ASCII fragment: space, tab, newline, carriage return, vertical tab, form
feed. -/
def wsChar (c : Char) : Bool :=
  c == ' ' || c == '\t' || c == '\n' || c == '\r' || c == Char.ofNat 11 || c == Char.ofNat 12

/-- JS `\w`: ASCII letters, digits and underscore. -/
def wordChar (c : Char) : Bool :=
  c.isAlpha || c.isDigit || c == '_'

/-- The ASCII apostrophe character. -/
def apos : Char := Char.ofNat 39

/-- A character of the capture class `[\w'&\- ]` of the location regexes. -/
def phraseChar (c : Char) : Bool :=
  wordChar c || c == apos || c == '&' || c == '-' || c == ' '

/-- JS `String.prototype.trim` on a character list: drop leading and trailing
whitespace. -/
def trimC (l : List Char) : List Char :=
  ((l.dropWhile wsChar).reverse.dropWhile wsChar).reverse

/-- JS `String.prototype.trim`. -/
def trimS (s : String) : String := String.mk (trimC s.data)

/-! ### The itinerary generator (`planTrip`, tools.ts lines 111-199) -/

/-- The static region catalog `regionToCities` (tools.ts lines 131-139). -/
def regionCatalog : List (String × List String) :=
  [("california", ["Los Angeles", "San Francisco", "San Diego", "Yosemite National Park"]),
   ("japan", ["Tokyo", "Kyoto", "Osaka", "Hiroshima"]),
   ("italy", ["Rome", "Florence", "Venice", "Milan"]),
   ("france", ["Paris", "Nice", "Lyon", "Bordeaux"]),
   ("spain", ["Barcelona", "Madrid", "Seville", "Valencia"]),
   ("india", ["Delhi", "Jaipur", "Agra", "Mumbai"]),
   ("greece", ["Athens", "Santorini", "Mykonos", "Crete"])]

/-- `regionToCities[key]` restricted to the object literal's own keys. -/
def regionToCities (key : String) : Option (List String) :=
  regionCatalog.lookup key

/-- The property names a plain object literal inherits from
`Object.prototype` (ECMAScript, Annex B included): bracket access with one of
these keys returns the inherited function or object, which is truthy, so the
`|| [destination]` fallback does not fire for them. -/
def protoProps : List String :=
  ["constructor", "hasOwnProperty", "isPrototypeOf", "propertyIsEnumerable",
   "toLocaleString", "toString", "valueOf", "__proto__", "__defineGetter__",
   "__defineSetter__", "__lookupGetter__", "__lookupSetter__"]

/-- The three outcomes of the JS bracket access `regionToCities[normalized]`
(tools.ts line 142): an own key of the object literal (a city array), a
property inherited from `Object.prototype` (a truthy non-array value), or a
genuine miss (`undefined`, falsy). -/
inductive BracketHit where
  | own (cities : List String)
  | proto
  | miss

/-- `regionToCities[key]` with full JS property-access semantics: own keys
first, then the `Object.prototype` chain, else `undefined`. -/
def bracketLookup (key : String) : BracketHit :=
  match regionToCities key with
  | some cities => BracketHit.own cities
  | none => if protoProps.contains key then BracketHit.proto else BracketHit.miss

/-- `exampleRestaurants` (tools.ts lines 145-152). -/
def exampleRestaurants : List String :=
  ["Blue Bottle Coffee", "The Grove Café", "The Local Diner",
   "Harbor View Seafood Grill", "Mountain Bistro", "Sunset Terrace"]

/-- `exampleActivities` (tools.ts lines 154-162). -/
def exampleActivities : List String :=
  ["city walking tour", "museum visit", "boat ride", "scenic lookout",
   "shopping district", "local market exploration", "fine dining experience"]

/-- `tripLength` for two valid dates (tools.ts lines 123-128):
`Math.ceil(Math.max(1, (end.getTime() - start.getTime()) / (1000*60*60*24)))`,
computed exactly over ℚ. -/
def tripLength (start endT : Int) : Int :=
  ⌈max 1 ((endT - start : ℚ) / (1000 * 60 * 60 * 24))⌉

/-- The number of iterations of the generation loop
`for (let i = 0; i < tripLength; i++)` (tools.ts line 166).  When either date
is invalid, `tripLength` is NaN and `i < NaN` is false, so the loop body never
runs. -/
def numDays (ostart oendT : Option Int) : Nat :=
  match ostart, oendT with
  | some s, some e => (tripLength s e).toNat
  | _, _ => 0

/-- JS `String.prototype.toLowerCase` (ASCII fragment), character by
character. -/
def lowerS (s : String) : String := String.mk (s.data.map Char.toLower)

/-- `subDestinations = regionToCities[destination.toLowerCase()] || [destination]`
(tools.ts lines 141-142) in its array-valued cases: the catalog list on an
own-key hit, the `[destination]` fallback on a genuine miss.  On an
`Object.prototype` hit the JS value is the inherited non-array object (the
fallback does not fire); no claim reads that value as a list — `cityOfDay`
renders its indexing result `undefined` directly, and `[]` here is a
placeholder it never consults. -/
def subDestinations (destination : String) : List String :=
  match bracketLookup (lowerS destination) with
  | BracketHit.own cities => cities
  | BracketHit.proto => []
  | BracketHit.miss => [destination]

/-- `subDestinations[i % subDestinations.length]` (tools.ts line 168) as the
rendered city string.  On an own hit it is the rotated catalog city; on an
inherited `Object.prototype` hit the looked-up value is a function or object
whose `.length` is a small number or `undefined` and whose numeric indexing
always yields `undefined`, so the interpolated city is the literal
`"undefined"`; on a genuine miss it is `[destination][i % 1] = destination`. -/
def cityOfDay (destination : String) (i : Nat) : String :=
  match bracketLookup (lowerS destination) with
  | BracketHit.own cities => cities.getD (i % cities.length) ""
  | BracketHit.proto => "undefined"
  | BracketHit.miss => [destination].getD (i % [destination].length) ""

/-- The five clock-time labels rendered on the five bullet lines of every day
block (tools.ts lines 172-176). -/
def displayedTimes : List String :=
  ["08:00 AM", "10:00 AM", "12:30 PM", "03:00 PM", "07:30 PM"]

/-- One bullet line `- **<time>:** <content>  \n` of a day block. -/
def bulletLine (t content : String) : String :=
  "- **" ++ t ++ ":** " ++ content ++ "  \n"

/-- The day block pushed on iteration `i` (tools.ts lines 170-178), with its
heading `**Day <i+1> — <city>**` and five bullet lines. -/
def dayBlock (destination : String) (i : Nat) : String :=
  "**Day " ++ toString (i + 1) ++ " — " ++ cityOfDay destination i ++ "**  \n" ++
  bulletLine (displayedTimes.getD 0 "")
    ("Breakfast at " ++ exampleRestaurants.getD ((i * 3) % exampleRestaurants.length) "") ++
  bulletLine (displayedTimes.getD 1 "")
    (exampleActivities.getD ((i * 4) % exampleActivities.length) "" ++ " in " ++
      cityOfDay destination i) ++
  bulletLine (displayedTimes.getD 2 "")
    ("Lunch at " ++ exampleRestaurants.getD ((i * 3 + 1) % exampleRestaurants.length) "") ++
  bulletLine (displayedTimes.getD 3 "")
    (exampleActivities.getD ((i * 2 + 1) % exampleActivities.length) "" ++ " nearby") ++
  bulletLine (displayedTimes.getD 4 "")
    ("Dinner at " ++ exampleRestaurants.getD ((i * 3 + 2) % exampleRestaurants.length) "")

/-- The `itinerary` array after the generation loop (tools.ts lines 165-179). -/
def itineraryDays (destination : String) (n : Nat) : List String :=
  (List.range n).map (dayBlock destination)

/-- The header-plus-days text `fullItinerary` (tools.ts lines 182-189): the
template literal, then `.trim()`.  `friends`/`interests` are `undefined` or a
list; the template keeps an empty segment (but its newline) when absent. -/
def fullItinerary (destination : String) (ostart oendT : Option Int)
    (interests friends : Option (List String)) : String :=
  trimS ("\nTrip to **" ++ destination ++ "**  \n" ++
    (match friends with
     | some fs => "Traveling with: " ++ String.intercalate ", " fs
     | none => "") ++ "\n" ++
    (match interests with
     | some ints => "Traveler interests: " ++ String.intercalate ", " ints
     | none => "") ++ "\n" ++
    "\nHere’s your detailed itinerary:\n" ++
    String.intercalate "\n" (itineraryDays destination (numDays ostart oendT)) ++
    "\n    ")

/-- The template literal of `fullItinerary` (tools.ts lines 182-189) with the
two optional header segments abstracted as plain strings: `fullItinerary`
is `trimS` of this template at the segments the `friends`/`interests`
matches produce. -/
def headerTemplate (destination Fs Is : String) (n : Nat) : String :=
  "\nTrip to **" ++ destination ++ "**  \n" ++
  Fs ++ "\n" ++
  Is ++ "\n" ++
  "\nHere’s your detailed itinerary:\n" ++
  String.intercalate "\n" (itineraryDays destination n) ++
  "\n    "

/-! ### Helper notions used to state the claims -/

/-- Ceiling division of integers, `⌈a / b⌉` for `b > 0`:
the claims' `ceil((end-start)/86400s)`. -/
def ceilDiv (a b : Int) : Int := -((-a) / b)

/-- Read a rendered `HH:MM AM`/`HH:MM PM` label as a 24-hour clock time. -/
def to24 (s : String) : Option (Nat × Nat) :=
  match s.data with
  | [h1, h2, ':', m1, m2, ' ', ap, 'M'] =>
    if h1.isDigit && h2.isDigit && m1.isDigit && m2.isDigit && (ap == 'A' || ap == 'P') then
      let h12 := 10 * (h1.toNat - 48) + (h2.toNat - 48)
      let mins := 10 * (m1.toNat - 48) + (m2.toNat - 48)
      some (if ap == 'A' then (if h12 == 12 then 0 else h12)
            else (if h12 == 12 then 12 else h12 + 12), mins)
    else none
  | _ => none

/-! ### The map-link extractor (`generateMapLinks`, tools.ts lines 264-309)

The three regexes of the source:
* day segmentation: `itinerary.split(/\*\*Day\s+\d+/g)` (line 272);
* day titles: `itinerary.matchAll(/\*\*Day\s+(\d+)[^*]*/g)`, `m[0].trim()` (line 273);
* places: `/\b(?:at|in|around|near|visit|explore|lunch at|dinner at)\s+([A-Z][\w'&\- ]+)/gi`
  (line 275), and the per-day local context
  `/\b(?:in|around|near|visit|explore)\s+([A-Z][\w'&\- ]+)/i` (lines 281-283).
-/

/-- Strip a literal pattern (case-sensitive), returning the rest on success. -/
def exactStrip : List Char → List Char → Option (List Char)
  | [], l => some l
  | _ :: _, [] => none
  | p :: ps, c :: cs => if c == p then exactStrip ps cs else none

/-- Strip a literal pattern case-insensitively (the `i` flag; patterns are
given in lowercase), returning the rest on success. -/
def ciStrip : List Char → List Char → Option (List Char)
  | [], l => some l
  | _ :: _, [] => none
  | p :: ps, c :: cs => if c.toLower == p then ciStrip ps cs else none

/-- Greedy `X+` for a character class: the maximal nonempty run satisfying
`p`, together with the rest.  Fails on an empty run. -/
def run1 (p : Char → Bool) : List Char → Option (List Char × List Char)
  | [] => none
  | c :: r => if p c then some (c :: r.takeWhile p, r.dropWhile p) else none

/-- The tail `\s+([A-Z][\w'&\- ]+)` of the location pattern under the `i`
flag (so the leading class matches any ASCII letter): greedy whitespace, a
letter, then a greedy nonempty run of phrase characters.  Returns
(capture, rest). -/
def matchAfterPrep (l : List Char) : Option (List Char × List Char) :=
  match run1 wsChar l with
  | none => none
  | some (_, l1) =>
    match l1 with
    | [] => none
    | c :: r =>
      if c.isAlpha then
        match run1 phraseChar r with
        | some (run, rest) => some (c :: run, rest)
        | none => none
      else none

/-- Ordered alternation `(?:p₁|p₂|…)` followed by `matchAfterPrep`, with
backtracking: the first alternative for which the whole rest of the pattern
also matches wins. -/
def tryAlts (alts : List (List Char)) (l : List Char) : Option (List Char × List Char) :=
  match alts with
  | [] => none
  | a :: more =>
    match ciStrip a l with
    | some l1 =>
      match matchAfterPrep l1 with
      | some res => some res
      | none => tryAlts more l
    | none => tryAlts more l

/-- Word boundary `\b` before an alternative starting with a letter: satisfied
exactly when the preceding character (if any) is not a word character. -/
def boundaryOk (prev : Option Char) : Bool :=
  match prev with
  | none => true
  | some c => !(wordChar c)

/-- Attempt the full location pattern
`\b(?:…)\s+([A-Z][\w'&\- ]+)` at the current position, `prev` being the
character just before it.  Returns (capture, rest after the match). -/
def matchPrep (alts : List (List Char)) (prev : Option Char) (l : List Char) :
    Option (List Char × List Char) :=
  if boundaryOk prev then tryAlts alts l else none

/-- The eight alternatives of the place-extraction regex, in source order. -/
def locAlts : List (List Char) :=
  ["at".data, "in".data, "around".data, "near".data, "visit".data,
   "explore".data, "lunch at".data, "dinner at".data]

/-- The five alternatives of the local-context regex, in source order. -/
def narrowAlts : List (List Char) :=
  ["in".data, "around".data, "near".data, "visit".data, "explore".data]

/-- Global scan of a location pattern (`matchAll`): find the leftmost match,
emit its capture, resume just after the matched text.  `fuel` bounds the
number of single-character steps; every step consumes at least one character,
so `l.length + 1` fuel is always enough. -/
def scanCaptures (alts : List (List Char)) : Nat → Option Char → List Char → List (List Char)
  | 0, _, _ => []
  | _ + 1, _, [] => []
  | fuel + 1, prev, c :: r =>
    match matchPrep alts prev (c :: r) with
    | some (cap, rest) => cap :: scanCaptures alts fuel (some (cap.getLastD c)) rest
    | none => scanCaptures alts fuel (some c) r

/-- First match of a location pattern (`String.prototype.match` without the
`g` flag): the capture of the leftmost match, if any. -/
def firstCapture (alts : List (List Char)) : Nat → Option Char → List Char → Option (List Char)
  | 0, _, _ => none
  | _ + 1, _, [] => none
  | fuel + 1, prev, c :: r =>
    match matchPrep alts prev (c :: r) with
    | some (cap, _) => some cap
    | none => firstCapture alts fuel (some c) r

/-- `matches.map(m => m[1].trim())` (tools.ts lines 279-280): the trimmed
captures of the global place scan over one day block. -/
def locationPlaces (block : String) : List String :=
  (scanCaptures locAlts (block.data.length + 1) none block.data).map
    (fun c => String.mk (trimC c))

/-- `block.match(/\b(?:in|around|near|visit|explore)\s+([A-Z][\w'&\- ]+)/i)`
with `m[1].trim()` (tools.ts lines 281-286). -/
def localContextMatch (block : String) : Option String :=
  (firstCapture narrowAlts (block.data.length + 1) none block.data).map
    (fun c => String.mk (trimC c))

/-- `destination || "the trip destination"` (tools.ts line 271); JS `||`
sends both a missing and an empty destination to the fallback. -/
def inferredDestinationOf (odest : Option String) : String :=
  match odest with
  | some d => if d == "" then "the trip destination" else d
  | none => "the trip destination"

/-- The day's local context (tools.ts lines 284-286). -/
def localContextOfBlock (block : String) (inferred : String) : String :=
  match localContextMatch block with
  | some c => c
  | none => inferred

/-- The day-heading separator `\*\*Day\s+\d+`: literal `**Day`, greedy
whitespace, greedy digits.  Returns the rest after the digits. -/
def matchDayNum (l : List Char) : Option (List Char) :=
  (exactStrip "**Day".data l).bind fun l1 =>
    (run1 wsChar l1).bind fun p1 =>
      (run1 Char.isDigit p1.2).map fun p2 => p2.2

/-- The title pattern `\*\*Day\s+(\d+)[^*]*`: the separator pattern followed
by a greedy (possibly empty) run of non-`*` characters.  Returns the rest
after the whole match. -/
def matchTitleTok (l : List Char) : Option (List Char) :=
  (matchDayNum l).map fun r => r.dropWhile (fun c => !(c == '*'))

/-- `itinerary.split(/\*\*Day\s+\d+/g)` (tools.ts line 272): the pieces of
the input around the matches of the separator pattern, scanning left to
right.  `acc` is the current piece, reversed. -/
def splitPieces : Nat → List Char → List Char → List (List Char)
  | 0, _, acc => [acc.reverse]
  | _ + 1, [], acc => [acc.reverse]
  | fuel + 1, c :: r, acc =>
    match matchDayNum (c :: r) with
    | some rest => acc.reverse :: splitPieces fuel rest []
    | none => splitPieces fuel r (c :: acc)

/-- All pieces of the split, as strings. -/
def splitSegments (itin : String) : List String :=
  (splitPieces (itin.data.length + 1) itin.data []).map String.mk

/-- `dayBlocks = itinerary.split(/\*\*Day\s+\d+/g).slice(1)` (line 272). -/
def dayBlocks (itin : String) : List String :=
  (splitSegments itin).drop 1

/-- Global scan of the title pattern, emitting each whole match `m[0]`. -/
def titleScan : Nat → List Char → List (List Char)
  | 0, _ => []
  | _ + 1, [] => []
  | fuel + 1, c :: r =>
    match matchTitleTok (c :: r) with
    | some rest => ((c :: r).take ((c :: r).length - rest.length)) :: titleScan fuel rest
    | none => titleScan fuel r

/-- `dayTitles = [...itinerary.matchAll(/\*\*Day\s+(\d+)[^*]*`/g)].map(m => m[0].trim())`
(tools.ts line 273). -/
def dayTitles (itin : String) : List String :=
  (titleScan (itin.data.length + 1) itin.data).map (fun c => String.mk (trimC c))

/-- The rendered title of section `index`:
`dayTitles[index] || ` ``Day ${index + 1}`` (tools.ts lines 297 and 299); JS
`||` falls back both when the index is out of range (`undefined`) and when
the title is the empty string. -/
def renderTitle (itin : String) (index : Nat) : String :=
  let t := (dayTitles itin).getD index ""
  if t == "" then "Day " ++ toString (index + 1) else t

/-- `encodeURIComponent`: characters outside the unreserved set
`A-Z a-z 0-9 - _ . ! ~ * ' ( )` are percent-encoded byte by byte (UTF-8,
uppercase hex). -/
def uriUnreserved (c : Char) : Bool :=
  c.isAlpha || c.isDigit || c == '-' || c == '_' || c == '.' || c == '!' ||
  c == '~' || c == '*' || c == apos || c == '(' || c == ')'

/-- One hexadecimal digit, uppercase. -/
def hexDigit (n : Nat) : Char :=
  if n < 10 then Char.ofNat (48 + n) else Char.ofNat (55 + n)

/-- `encodeURIComponent` (tools.ts line 292). -/
def encodeURIComponent (s : String) : String :=
  String.join (s.data.map fun c =>
    if uriUnreserved c then String.mk [c]
    else String.join (((String.mk [c]).toUTF8.toList).map fun b =>
      String.mk ['%', hexDigit (b.toNat / 16), hexDigit (b.toNat % 16)]))

/-- The rendered link line for one extracted place (tools.ts lines 290-294). -/
def linkLine (place ctx : String) : String :=
  "• [" ++ place ++ " (" ++ ctx ++ ")](https://www.google.com/maps/search/?api=1&query=" ++
    encodeURIComponent (place ++ ", " ++ ctx) ++ ")"

/-- The rendered section for day `index` with raw block `block`
(tools.ts lines 278-301). -/
def sectionFor (itin : String) (inferred : String) (index : Nat) (block : String) : String :=
  let places := locationPlaces block
  let ctx := localContextOfBlock block inferred
  if places.length > 0 then
    "**" ++ renderTitle itin index ++ "**\n" ++
      String.intercalate "\n" (places.map fun p => linkLine p ctx)
  else
    "**" ++ renderTitle itin index ++ "**\nNo recognizable locations found."

/-- The `links` array built by the `forEach` over the day blocks
(tools.ts lines 276-301). -/
def mapLinkSections (itin : String) (odest : Option String) : List String :=
  (dayBlocks itin).enum.map fun p => sectionFor itin (inferredDestinationOf odest) p.1 p.2

/-- The full output of `generateMapLinks` (tools.ts lines 270-308). -/
def generateMapLinks (itin : String) (odest : Option String) : String :=
  trimS ("\n **Google Maps Links for Each Day**\n\n" ++
    String.intercalate "\n\n" (mapLinkSections itin odest) ++ "\n    ")

/-- The full output of `planTrip` (tools.ts lines 191-197): the itinerary,
a blank line, then the map links generated from it. -/
def planTripOutput (destination : String) (ostart oendT : Option Int)
    (interests friends : Option (List String)) : String :=
  let full := fullItinerary destination ostart oendT interests friends
  full ++ "\n\n" ++ generateMapLinks full (some destination)

/-! ### Claim-side definitions (transcribed from the claims' wording, for
refinement comparisons) -/

/-- The character just before position `j` of `s`, if any. -/
def prevAt (s : List Char) (j : Nat) : Option Char :=
  (s.take j).getLast?

/-- A phrase character as claims C6/C7 describe it: letters, apostrophes,
ampersands, hyphens and spaces (no digits, no underscore). -/
def claimPhraseChar (c : Char) : Bool :=
  c.isAlpha || c == apos || c == '&' || c == '-' || c == ' '

/-- The pattern tail as claims C6/C7 describe it: whitespace, then a
capitalized phrase — an uppercase letter followed by claim-phrase
characters. -/
def claimAfterPrep (l : List Char) : Option (List Char × List Char) :=
  match run1 wsChar l with
  | none => none
  | some (_, l1) =>
    match l1 with
    | [] => none
    | c :: r =>
      if c.isUpper then
        match run1 claimPhraseChar r with
        | some (run, rest) => some (c :: run, rest)
        | none => none
      else none

/-- Ordered alternation over the prepositions with the claim-side tail. -/
def claimTryAlts (alts : List (List Char)) (l : List Char) : Option (List Char × List Char) :=
  match alts with
  | [] => none
  | a :: more =>
    match ciStrip a l with
    | some l1 =>
      match claimAfterPrep l1 with
      | some res => some res
      | none => claimTryAlts more l
    | none => claimTryAlts more l

/-- The claim-side pattern attempted at position `j` of `s` (preposition
case-insensitive, capitalized phrase), with the word boundary. -/
def claimMatchAt (alts : List (List Char)) (s : List Char) (j : Nat) :
    Option (List Char × List Char) :=
  if boundaryOk (prevAt s j) then claimTryAlts alts (s.drop j) else none

/-- C6 as claimed: the trimmed captures of **every occurrence** of
preposition + capitalized phrase in the block. -/
def claimPlaces (block : String) : List String :=
  (List.range block.data.length).filterMap fun j =>
    (claimMatchAt locAlts block.data j).map fun pr => String.mk (trimC pr.1)

/-- C7 as claimed: the trimmed first capitalized-phrase match of the narrower
preposition set; otherwise the supplied destination; otherwise the literal
fallback string. -/
def claimLocalContext (block : String) (odest : Option String) : String :=
  match (List.range block.data.length).findSome?
      (fun j => (claimMatchAt narrowAlts block.data j).map Prod.fst) with
  | some cap => String.mk (trimC cap)
  | none =>
    match odest with
    | some d => d
    | none => "the trip destination"

/-- The source pattern attempted at position `j` of `s` (the real semantics:
the `i` flag covers the phrase head too), with its consumed length. -/
def matchAtIdx (alts : List (List Char)) (s : List Char) (j : Nat) :
    Option (List Char × Nat) :=
  (matchPrep alts (prevAt s j) (s.drop j)).map fun pr =>
    (pr.1, (s.drop j).length - pr.2.length)

/-- Position-indexed transcription of the amended C6 wording: from position
`i`, the first position `j ≥ i` where the pattern matches yields a capture,
and the scan resumes immediately after the matched text (occurrences starting
inside the matched text are skipped). -/
def idxScan (alts : List (List Char)) (s : List Char) : Nat → Nat → List (List Char)
  | 0, _ => []
  | fuel + 1, i =>
    match (List.range' i (s.length - i)).find? (fun j => (matchAtIdx alts s j).isSome) with
    | none => []
    | some j =>
      match matchAtIdx alts s j with
      | none => []
      | some (cap, k) => cap :: idxScan alts s fuel (j + k)

/-- The amended C6 reading of place extraction, as trimmed captures of the
position-indexed scan. -/
def idxPlaces (block : String) : List String :=
  (idxScan locAlts block.data (block.data.length + 1) 0).map (fun c => String.mk (trimC c))

/-- The amended C7 reading of the local context: the capture of the match at
the least matching position of the narrower pattern. -/
def idxLocalContext (block : String) (inferred : String) : String :=
  match (List.range block.data.length).findSome?
      (fun j => (matchAtIdx narrowAlts block.data j).map Prod.fst) with
  | some cap => String.mk (trimC cap)
  | none => inferred

/-! ### Lines of a text (used to state the header claim C9) -/

/-- The lines of a character list, splitting at every newline (`k` newlines
yield `k+1` lines). -/
def splitNL : List Char → List (List Char)
  | [] => [[]]
  | c :: r =>
    if c == '\n' then [] :: splitNL r
    else
      match splitNL r with
      | [] => [[c]]
      | h :: t => (c :: h) :: t

/-- Whether some line of `l` starts with `p`. -/
def lineStartB (l : List Char) (p : List Char) : Bool :=
  (splitNL l).any fun ln => p.isPrefixOf ln

/-- Join chunks with single newlines (inverse of `splitNL` on newline-free
chunks). -/
def joinLines : List (List Char) → List Char
  | [] => []
  | [x] => x
  | x :: xs => x ++ '\n' :: joinLines xs

/-- A character list without newlines (one rendered line). -/
def noNL (l : List Char) : Prop := ∀ c ∈ l, ¬ c = '\n'

instance (l : List Char) : Decidable (noNL l) :=
  inferInstanceAs (Decidable (∀ c ∈ l, ¬ c = '\n'))

/-- Drop trailing whitespace (the right half of `trimC`). -/
def dropTrail (l : List Char) : List Char :=
  (l.reverse.dropWhile wsChar).reverse

/-- A line that can occur below the generated header: empty, or starting
with one of the characters `*`, `-`, `H` (the `Here’s …` line) or a space
(the trailing indentation line).  No such line starts with `T`, so neither
header marker `Traveling with: ` nor `Traveler interests: ` can prefix it. -/
def benignLine (ln : List Char) : Prop :=
  ln = [] ∨ ∃ h u, ln = h :: u ∧ (h = '*' ∨ h = '-' ∨ h = 'H' ∨ h = ' ')

/-- The characters of a rendered bullet line, without its terminating
newline. -/
def bulletChunk (t content : String) : List Char :=
  '-' :: (" **".data ++ (t.data ++ (":** ".data ++ (content.data ++ [' ', ' ']))))

/-- The characters of a rendered day heading, without its terminating
newline. -/
def headChunk (destination : String) (i : Nat) : List Char :=
  '*' :: ("*Day ".data ++ ((toString (i + 1)).data ++ (" — ".data ++
    ((cityOfDay destination i).data ++ "**  ".data))))

/-- The lines of one rendered day block (including the blank line its final
newline produces before the next block). -/
def blockChunks (destination : String) (i : Nat) : List (List Char) :=
  [headChunk destination i,
   bulletChunk (displayedTimes.getD 0 "")
     ("Breakfast at " ++ exampleRestaurants.getD ((i * 3) % exampleRestaurants.length) ""),
   bulletChunk (displayedTimes.getD 1 "")
     (exampleActivities.getD ((i * 4) % exampleActivities.length) "" ++ " in " ++
       cityOfDay destination i),
   bulletChunk (displayedTimes.getD 2 "")
     ("Lunch at " ++ exampleRestaurants.getD ((i * 3 + 1) % exampleRestaurants.length) ""),
   bulletChunk (displayedTimes.getD 3 "")
     (exampleActivities.getD ((i * 2 + 1) % exampleActivities.length) "" ++ " nearby"),
   bulletChunk (displayedTimes.getD 4 "")
     ("Dinner at " ++ exampleRestaurants.getD ((i * 3 + 2) % exampleRestaurants.length) ""),
   []]

/-! ### Lemmas for claim C1 -/

theorem tripLength_eq_max_ceilDiv (s e : Int) :
    tripLength s e = max 1 (ceilDiv (e - s) 86400000) := by
  unfold tripLength ceilDiv
  have h1 : ((1000 * 60 * 60 * 24 : ℚ)) = ((86400000 : ℕ) : ℚ) := by norm_num
  have hmax : (⌈max 1 ((e - s : ℚ) / (1000 * 60 * 60 * 24))⌉ : ℤ)
      = max ⌈(1 : ℚ)⌉ ⌈((e - s : ℚ) / (1000 * 60 * 60 * 24))⌉ :=
    Int.ceil_mono.map_max
  rw [hmax, Int.ceil_one]
  congr 1
  have hceil : (⌈((e - s : ℚ) / (1000 * 60 * 60 * 24))⌉ : ℤ)
      = -⌊-(((e - s : ℚ)) / (1000 * 60 * 60 * 24))⌋ := by
    rw [← Int.ceil_neg, neg_neg]
  rw [hceil, h1]
  have : -(((e - s : ℚ)) / ((86400000 : ℕ) : ℚ)) = ((-(e - s) : ℤ) : ℚ) / ((86400000 : ℕ) : ℚ) := by
    push_cast
    ring
  rw [this, Rat.floor_intCast_div_natCast]
  norm_num

theorem one_le_tripLength (s e : Int) : 1 ≤ tripLength s e := by
  unfold tripLength
  calc (1 : ℤ) = ⌈(1 : ℚ)⌉ := by rw [Int.ceil_one]
    _ ≤ _ := Int.ceil_mono (le_max_left _ _)

/-- C1: for every trip request whose start and end dates both parse, the
number of generated days is `ceil(max(1,(end-start)/86400000)) =
max(1, ⌈(end-start)/86400000⌉)`, is at least 1 even when the end precedes the
start, and the generated itinerary has exactly that many day blocks. -/
theorem c1_duration_and_day_count (destination : String) (s e : Int) :
    numDays (some s) (some e) = (max 1 (ceilDiv (e - s) 86400000)).toNat ∧
    1 ≤ numDays (some s) (some e) ∧
    (itineraryDays destination (numDays (some s) (some e))).length
      = numDays (some s) (some e) := by
  refine ⟨?_, ?_, ?_⟩
  · show (tripLength s e).toNat = _
    rw [tripLength_eq_max_ceilDiv]
  · show 1 ≤ (tripLength s e).toNat
    have := one_le_tripLength s e
    omega
  · simp [itineraryDays]

/-- C2 counterexample: with an unparseable start date (`new Date` gives NaN)
and end date 1970-01-01, the generated itinerary has zero day blocks, not the
one block the claim asserts. -/
theorem c2_counterexample :
    numDays none (some 0) = 0 ∧
    (itineraryDays "Paris" (numDays none (some 0))).length = 0 ∧
    (itineraryDays "Paris" (numDays none (some 0))).length ≠ 1 := by
  refine ⟨rfl, rfl, by decide⟩

/-- C2 amended: when the start or the end date fails to parse, `planTrip`
still does not throw, but NaN propagates through the duration computation and
the generation loop runs zero times, so the itinerary contains zero day
blocks (not one). -/
theorem c2_invalid_dates_yield_zero_days (destination : String)
    (ostart oendT : Option Int) (h : ostart = none ∨ oendT = none) :
    numDays ostart oendT = 0 ∧
    (itineraryDays destination (numDays ostart oendT)).length = 0 := by
  have hz : numDays ostart oendT = 0 := by
    cases ostart with
    | none => cases oendT <;> rfl
    | some s =>
      cases oendT with
      | none => rfl
      | some e => rcases h with h | h <;> simp at h
  exact ⟨hz, by simp [hz, itineraryDays]⟩

/-- C2 amended, witness at a concrete input. -/
theorem c2_invalid_dates_yield_zero_days_witness :
    numDays (some 0) none = 0 ∧
    (itineraryDays "Tokyo" (numDays (some 0) none)).length = 0 :=
  c2_invalid_dates_yield_zero_days "Tokyo" (some 0) none (Or.inr rfl)

/-! ### Claims C3, C4, C5 -/

theorem itineraryDays_getD (destination : String) {n i : Nat} (h : i < n) :
    (itineraryDays destination n).getD i "" = dayBlock destination i := by
  unfold itineraryDays
  rw [List.getD_eq_getElem?_getD, List.getElem?_map, List.getElem?_range h]
  rfl

/-- C3: every generated day block is the literal heading
`**Day <n> — <city>**` (with `<n> = i + 1` for the `i`-th block, so numbering
starts at 1 and increments without gaps), followed by five bullet lines whose
labels are the fixed clock times 08:00, 10:00, 12:30, 15:00 and 19:30. -/
theorem c3_day_block_format (destination : String) (n i : Nat) (h : i < n) :
    (∃ s1 s2 s3 s4 s5 : String,
      (itineraryDays destination n).getD i "" =
        "**Day " ++ toString (i + 1) ++ " — " ++ cityOfDay destination i ++ "**  \n" ++
        bulletLine (displayedTimes.getD 0 "") s1 ++
        bulletLine (displayedTimes.getD 1 "") s2 ++
        bulletLine (displayedTimes.getD 2 "") s3 ++
        bulletLine (displayedTimes.getD 3 "") s4 ++
        bulletLine (displayedTimes.getD 4 "") s5) ∧
    displayedTimes.map to24 =
      [some (8, 0), some (10, 0), some (12, 30), some (15, 0), some (19, 30)] := by
  constructor
  · rw [itineraryDays_getD destination h]
    exact ⟨_, _, _, _, _, rfl⟩
  · decide

/-- C3 witness. -/
theorem c3_day_block_format_witness :
    (∃ s1 s2 s3 s4 s5 : String,
      (itineraryDays "Rome" 2).getD 1 "" =
        "**Day " ++ toString (1 + 1) ++ " — " ++ cityOfDay "Rome" 1 ++ "**  \n" ++
        bulletLine (displayedTimes.getD 0 "") s1 ++
        bulletLine (displayedTimes.getD 1 "") s2 ++
        bulletLine (displayedTimes.getD 2 "") s3 ++
        bulletLine (displayedTimes.getD 3 "") s4 ++
        bulletLine (displayedTimes.getD 4 "") s5) ∧
    displayedTimes.map to24 =
      [some (8, 0), some (10, 0), some (12, 30), some (15, 0), some (19, 30)] :=
  c3_day_block_format "Rome" 2 1 (by decide)

/-- C4: for a destination whose lowercased form is a catalog key with city
list `cities`, the sub-location list is exactly `cities`, day `i` (0-based)
is assigned `cities[i % cities.length]`, and the assignment is periodic with
period `cities.length`. -/
theorem c4_region_cycling (destination : String) (cities : List String)
    (h : regionToCities (lowerS destination) = some cities) (i : Nat) :
    subDestinations destination = cities ∧
    cityOfDay destination i = cities.getD (i % cities.length) "" ∧
    cityOfDay destination (i + cities.length) = cityOfDay destination i := by
  have hbr : bracketLookup (lowerS destination) = BracketHit.own cities := by
    unfold bracketLookup
    rw [h]
  refine ⟨?_, ?_, ?_⟩
  · unfold subDestinations
    rw [hbr]
  · simp only [cityOfDay, hbr]
  · simp only [cityOfDay, hbr]
    rw [Nat.add_mod_right]

/-- C4 witness: `"Japan"` (case-insensitive hit), day 5 is day 1's city. -/
theorem c4_region_cycling_witness :
    subDestinations "Japan" = ["Tokyo", "Kyoto", "Osaka", "Hiroshima"] ∧
    cityOfDay "Japan" 5 =
      ["Tokyo", "Kyoto", "Osaka", "Hiroshima"].getD
        (5 % ["Tokyo", "Kyoto", "Osaka", "Hiroshima"].length) "" ∧
    cityOfDay "Japan" (5 + ["Tokyo", "Kyoto", "Osaka", "Hiroshima"].length) =
      cityOfDay "Japan" 5 :=
  c4_region_cycling "Japan" ["Tokyo", "Kyoto", "Osaka", "Hiroshima"] (by decide) 5

/-- C5 counterexample: `"constructor"` is not a catalog key, yet the JS
bracket lookup hits the inherited, truthy `Object.prototype.constructor`, so
the `|| [destination]` fallback does not fire and every day's city renders as
the literal `"undefined"` — not the raw destination, as the claim asserts for
every non-catalog destination. -/
theorem c5_counterexample :
    regionToCities (lowerS "constructor") = none ∧
    bracketLookup (lowerS "constructor") = BracketHit.proto ∧
    (∀ i, cityOfDay "constructor" i = "undefined") ∧
    cityOfDay "constructor" 0 ≠ "constructor" :=
  ⟨by decide, rfl, fun i => rfl, by decide⟩

/-- C5 (amended): for a destination whose lowercased form is neither a
catalog key nor an `Object.prototype` property name, the sub-location list is
the singleton `[destination]`, every day's city is the raw destination with
its original casing, and every day block's heading shows exactly it; when the
lowercased form is an inherited `Object.prototype` property name, the lookup
value is truthy, the fallback does not fire, and every day block's heading
instead shows the literal city `undefined`. -/
theorem c5_unknown_destination (destination : String)
    (h : regionToCities (lowerS destination) = none) (i : Nat) :
    (protoProps.contains (lowerS destination) = false →
      subDestinations destination = [destination] ∧
      cityOfDay destination i = destination ∧
      ∃ rest : String, dayBlock destination i =
        "**Day " ++ toString (i + 1) ++ " — " ++ destination ++ "**  \n" ++ rest) ∧
    (protoProps.contains (lowerS destination) = true →
      cityOfDay destination i = "undefined" ∧
      ∃ rest : String, dayBlock destination i =
        "**Day " ++ toString (i + 1) ++ " — " ++ "undefined" ++ "**  \n" ++ rest) := by
  constructor
  · intro hp
    have hbr : bracketLookup (lowerS destination) = BracketHit.miss := by
      unfold bracketLookup
      rw [h, hp]
      rfl
    have hsub : subDestinations destination = [destination] := by
      unfold subDestinations
      rw [hbr]
    have hcity : cityOfDay destination i = destination := by
      simp only [cityOfDay, hbr]
      simp [Nat.mod_one]
    refine ⟨hsub, hcity,
      bulletLine (displayedTimes.getD 0 "")
        ("Breakfast at " ++ exampleRestaurants.getD ((i * 3) % exampleRestaurants.length) "") ++
      bulletLine (displayedTimes.getD 1 "")
        (exampleActivities.getD ((i * 4) % exampleActivities.length) "" ++ " in " ++ destination) ++
      bulletLine (displayedTimes.getD 2 "")
        ("Lunch at " ++ exampleRestaurants.getD ((i * 3 + 1) % exampleRestaurants.length) "") ++
      bulletLine (displayedTimes.getD 3 "")
        (exampleActivities.getD ((i * 2 + 1) % exampleActivities.length) "" ++ " nearby") ++
      bulletLine (displayedTimes.getD 4 "")
        ("Dinner at " ++ exampleRestaurants.getD ((i * 3 + 2) % exampleRestaurants.length) ""), ?_⟩
    unfold dayBlock
    rw [hcity]
    simp [String.append_assoc]
  · intro hp
    have hbr : bracketLookup (lowerS destination) = BracketHit.proto := by
      unfold bracketLookup
      rw [h, hp]
      rfl
    have hcity : cityOfDay destination i = "undefined" := by
      simp only [cityOfDay, hbr]
    refine ⟨hcity,
      bulletLine (displayedTimes.getD 0 "")
        ("Breakfast at " ++ exampleRestaurants.getD ((i * 3) % exampleRestaurants.length) "") ++
      bulletLine (displayedTimes.getD 1 "")
        (exampleActivities.getD ((i * 4) % exampleActivities.length) "" ++ " in " ++ "undefined") ++
      bulletLine (displayedTimes.getD 2 "")
        ("Lunch at " ++ exampleRestaurants.getD ((i * 3 + 1) % exampleRestaurants.length) "") ++
      bulletLine (displayedTimes.getD 3 "")
        (exampleActivities.getD ((i * 2 + 1) % exampleActivities.length) "" ++ " nearby") ++
      bulletLine (displayedTimes.getD 4 "")
        ("Dinner at " ++ exampleRestaurants.getD ((i * 3 + 2) % exampleRestaurants.length) ""), ?_⟩
    unfold dayBlock
    rw [hcity]
    simp [String.append_assoc]

/-- C5 witness: the genuinely unknown destination `"Atlantis"` keeps its own
name as every day's city, while the prototype-chain destination
`"constructor"` renders city `undefined`. -/
theorem c5_unknown_destination_witness :
    (subDestinations "Atlantis" = ["Atlantis"] ∧
     cityOfDay "Atlantis" 3 = "Atlantis" ∧
     ∃ rest : String, dayBlock "Atlantis" 3 =
       "**Day " ++ toString (3 + 1) ++ " — " ++ "Atlantis" ++ "**  \n" ++ rest) ∧
    (cityOfDay "constructor" 0 = "undefined" ∧
     ∃ rest : String, dayBlock "constructor" 0 =
       "**Day " ++ toString (0 + 1) ++ " — " ++ "undefined" ++ "**  \n" ++ rest) :=
  ⟨(c5_unknown_destination "Atlantis" (by decide) 3).1 (by decide),
   (c5_unknown_destination "constructor" (by decide) 0).2 (by decide)⟩

/-! ### Claim C8 -/

theorem dayBlocks_getElem_eq_getD (itin : String) {i : Nat}
    (h : i < (dayBlocks itin).length) :
    (dayBlocks itin)[i] = (dayBlocks itin).getD i "" := by
  rw [List.getD_eq_getElem?_getD, List.getElem?_eq_getElem h]
  rfl

/-- C8: a day block from which no place is extracted is rendered as its title
followed by the literal line `No recognizable locations found.`; the day is
not dropped (the rendered section list has one section per day block), and
the section carries no link. -/
theorem c8_no_match_day (itin : String) (odest : Option String) (i : Nat)
    (h : i < (dayBlocks itin).length)
    (hp : locationPlaces ((dayBlocks itin).getD i "") = []) :
    (mapLinkSections itin odest).getD i "" =
      "**" ++ renderTitle itin i ++ "**\nNo recognizable locations found." ∧
    (mapLinkSections itin odest).length = (dayBlocks itin).length := by
  constructor
  · unfold mapLinkSections
    rw [List.getD_eq_getElem?_getD, List.getElem?_map, List.getElem?_enum,
      List.getElem?_eq_getElem h]
    show sectionFor itin (inferredDestinationOf odest) i ((dayBlocks itin)[i]) = _
    rw [dayBlocks_getElem_eq_getD itin h]
    unfold sectionFor
    rw [hp]
    rfl
  · unfold mapLinkSections
    rw [List.length_map, List.enum_length]

/-- C8 witness: a hand-written itinerary whose single day block mentions no
recognizable location. -/
theorem c8_no_match_day_witness :
    (mapLinkSections "intro\n**Day 1 rest, relax, recover" (some "Nowhere")).getD 0 "" =
      "**" ++ renderTitle "intro\n**Day 1 rest, relax, recover" 0 ++
        "**\nNo recognizable locations found." ∧
    (mapLinkSections "intro\n**Day 1 rest, relax, recover" (some "Nowhere")).length =
      (dayBlocks "intro\n**Day 1 rest, relax, recover").length :=
  c8_no_match_day "intro\n**Day 1 rest, relax, recover" (some "Nowhere") 0
    (by decide) (by decide)


/-! ### Structural facts about the pattern matchers -/

theorem exactStrip_eq {p l r : List Char} (h : exactStrip p l = some r) : l = p ++ r := by
  induction p generalizing l with
  | nil =>
    simpa [exactStrip] using h
  | cons x xs ih =>
    cases l with
    | nil => simp [exactStrip] at h
    | cons c cs =>
      simp only [exactStrip] at h
      split at h
      · next hc =>
        have hcx : c = x := by simpa using hc
        have := ih h
        simp [hcx, this]
      · exact absurd h (by simp)

theorem ciStrip_parts {p l r : List Char} (h : ciStrip p l = some r) :
    ∃ pre, l = pre ++ r ∧ pre.length = p.length := by
  induction p generalizing l with
  | nil =>
    refine ⟨[], ?_, rfl⟩
    simpa [ciStrip] using h
  | cons x xs ih =>
    cases l with
    | nil => simp [ciStrip] at h
    | cons c cs =>
      simp only [ciStrip] at h
      split at h
      · obtain ⟨pre, hpre, hlen⟩ := ih h
        exact ⟨c :: pre, by simp [hpre], by simp [hlen]⟩
      · exact absurd h (by simp)

theorem run1_parts {p : Char → Bool} {l run rest : List Char}
    (h : run1 p l = some (run, rest)) : l = run ++ rest ∧ run ≠ [] := by
  cases l with
  | nil => simp [run1] at h
  | cons c cs =>
    simp only [run1] at h
    split at h
    · injection h with h'
      injection h' with h1 h2
      subst h1
      subst h2
      exact ⟨by simp [List.takeWhile_append_dropWhile], by simp⟩
    · exact absurd h (by simp)

theorem matchAfterPrep_parts {l cap rest : List Char}
    (h : matchAfterPrep l = some (cap, rest)) :
    ∃ pre, l = pre ++ cap ++ rest ∧ cap ≠ [] := by
  unfold matchAfterPrep at h
  cases hw : run1 wsChar l with
  | none => rw [hw] at h; exact absurd h (by simp)
  | some pw =>
    rw [hw] at h
    obtain ⟨w, l1⟩ := pw
    obtain ⟨hl, hw0⟩ := run1_parts hw
    cases l1 with
    | nil => simp at h
    | cons c r =>
      simp only at h
      split at h
      · cases hr : run1 phraseChar r with
        | none => rw [hr] at h; exact absurd h (by simp)
        | some pr =>
          rw [hr] at h
          obtain ⟨run, rest'⟩ := pr
          simp only at h
          injection h with h'
          injection h' with h1 h2
          subst h1
          subst h2
          obtain ⟨hrun, _⟩ := run1_parts hr
          refine ⟨w, ?_, by simp⟩
          rw [hl, hrun]
          simp
      · exact absurd h (by simp)

theorem tryAlts_parts {alts : List (List Char)} {l cap rest : List Char}
    (h : tryAlts alts l = some (cap, rest)) :
    ∃ pre, l = pre ++ cap ++ rest ∧ cap ≠ [] := by
  induction alts with
  | nil => simp [tryAlts] at h
  | cons a more ih =>
    simp only [tryAlts] at h
    cases hs : ciStrip a l with
    | none => rw [hs] at h; exact ih h
    | some l1 =>
      rw [hs] at h
      simp only at h
      cases hm : matchAfterPrep l1 with
      | none => rw [hm] at h; exact ih h
      | some res =>
        rw [hm] at h
        simp only at h
        injection h with h'
        obtain ⟨pre1, hpre1, _⟩ := ciStrip_parts hs
        obtain ⟨pre2, hpre2, hcap⟩ := matchAfterPrep_parts (h' ▸ hm)
        refine ⟨pre1 ++ pre2, ?_, hcap⟩
        rw [hpre1, hpre2]
        simp

theorem matchPrep_parts {alts : List (List Char)} {prev : Option Char} {l cap rest : List Char}
    (h : matchPrep alts prev l = some (cap, rest)) :
    ∃ pre, l = pre ++ cap ++ rest ∧ cap ≠ [] := by
  unfold matchPrep at h
  split at h
  · exact tryAlts_parts h
  · exact absurd h (by simp)

theorem matchPrep_rest_lt {alts : List (List Char)} {prev : Option Char} {l cap rest : List Char}
    (h : matchPrep alts prev l = some (cap, rest)) : rest.length < l.length := by
  obtain ⟨pre, hl, hcap⟩ := matchPrep_parts h
  have : 0 < cap.length := List.length_pos.2 hcap
  rw [hl]
  simp only [List.length_append]
  omega

theorem matchAfterPrep_nil : matchAfterPrep [] = none := rfl

theorem tryAlts_nil (alts : List (List Char)) : tryAlts alts [] = none := by
  induction alts with
  | nil => rfl
  | cons a more ih =>
    simp only [tryAlts]
    cases ha : ciStrip a [] with
    | none => exact ih
    | some l1 =>
      have hl1 : l1 = [] := by
        obtain ⟨pre, hp, _⟩ := ciStrip_parts ha
        exact (List.append_eq_nil.mp hp.symm).2
      simp only [hl1, matchAfterPrep_nil]
      exact ih

theorem matchPrep_nil (alts : List (List Char)) (prev : Option Char) :
    matchPrep alts prev [] = none := by
  unfold matchPrep
  rw [tryAlts_nil]
  simp

theorem prevAt_zero (s : List Char) : prevAt s 0 = none := by simp [prevAt]

theorem prevAt_succ {s : List Char} {i : Nat} (h : i < s.length) :
    prevAt s (i + 1) = some s[i] := by
  unfold prevAt
  rw [List.take_succ, List.getElem?_eq_getElem h]
  rw [Option.toList_some]
  rw [List.getLast?_concat]

theorem matchPrep_at_decomp {alts : List (List Char)} {s : List Char} {i : Nat}
    {cap rest : List Char}
    (h : matchPrep alts (prevAt s i) (s.drop i) = some (cap, rest)) :
    1 ≤ (s.drop i).length - rest.length ∧
    i + ((s.drop i).length - rest.length) ≤ s.length ∧
    s.drop (i + ((s.drop i).length - rest.length)) = rest ∧
    prevAt s (i + ((s.drop i).length - rest.length)) = cap.getLast? := by
  obtain ⟨pre, hl, hcap⟩ := matchPrep_parts h
  have hlen : (s.drop i).length = (pre ++ cap).length + rest.length := by
    rw [hl]
    simp only [List.length_append]
  have hcapl : 0 < cap.length := List.length_pos.2 hcap
  have hk : (s.drop i).length - rest.length = (pre ++ cap).length := by omega
  have his : i ≤ s.length := by
    by_contra hgt
    push_neg at hgt
    have hnil : s.drop i = [] := List.drop_eq_nil_of_le (le_of_lt hgt)
    rw [hnil, matchPrep_nil] at h
    exact absurd h (by simp)
  have hdl : (s.drop i).length = s.length - i := List.length_drop i s
  have hassoc : pre ++ cap ++ rest = (pre ++ cap) ++ rest := rfl
  refine ⟨?_, ?_, ?_, ?_⟩
  · rw [hk]
    simp only [List.length_append]
    omega
  · omega
  · have hdd : List.drop (i + (pre ++ cap).length) s
        = List.drop (pre ++ cap).length (List.drop i s) := by
      rw [List.drop_drop, Nat.add_comm]
    rw [hk, hdd, hl, hassoc]
    exact List.drop_left _ _
  · unfold prevAt
    rw [hk, List.take_add, hl, hassoc, List.take_left]
    rw [List.getLast?_append, List.getLast?_append]
    cases hc : cap.getLast? with
    | none => exact absurd (List.getLast?_eq_none_iff.mp hc) hcap
    | some v => rfl

theorem scanCaptures_nil (alts : List (List Char)) (f : Nat) (prev : Option Char) :
    scanCaptures alts f prev [] = [] := by
  cases f <;> rfl

theorem firstCapture_nil (alts : List (List Char)) (f : Nat) (prev : Option Char) :
    firstCapture alts f prev [] = none := by
  cases f <;> rfl

theorem scanCaptures_step_none {alts : List (List Char)} {s : List Char} {i : Nat}
    (hi : i < s.length) (f : Nat)
    (hm : matchPrep alts (prevAt s i) (s.drop i) = none) :
    scanCaptures alts (f + 1) (prevAt s i) (s.drop i)
      = scanCaptures alts f (prevAt s (i + 1)) (s.drop (i + 1)) := by
  rw [prevAt_succ hi]
  conv_lhs => rw [List.drop_eq_getElem_cons hi]
  rw [List.drop_eq_getElem_cons hi] at hm
  simp only [scanCaptures]
  rw [hm]

theorem scanCaptures_step_some {alts : List (List Char)} {s : List Char} {i : Nat}
    {cap rest : List Char} (hi : i < s.length) (f : Nat)
    (hm : matchPrep alts (prevAt s i) (s.drop i) = some (cap, rest)) :
    scanCaptures alts (f + 1) (prevAt s i) (s.drop i)
      = cap :: scanCaptures alts f
          (prevAt s (i + ((s.drop i).length - rest.length)))
          (s.drop (i + ((s.drop i).length - rest.length))) := by
  obtain ⟨_, _, h3, h4⟩ := matchPrep_at_decomp hm
  obtain ⟨_, _, hcap⟩ := matchPrep_parts hm
  rw [h3, h4]
  conv_lhs => rw [List.drop_eq_getElem_cons hi]
  rw [List.drop_eq_getElem_cons hi] at hm
  simp only [scanCaptures]
  rw [hm]
  have hlast : some (cap.getLastD s[i]) = cap.getLast? := by
    rw [List.getLastD_eq_getLast?]
    cases hc : cap.getLast? with
    | none => exact absurd (List.getLast?_eq_none_iff.mp hc) hcap
    | some v => rfl
  show cap :: scanCaptures alts f (some (cap.getLastD s[i])) rest
      = cap :: scanCaptures alts f cap.getLast? rest
  rw [hlast]

theorem firstCapture_step_none {alts : List (List Char)} {s : List Char} {i : Nat}
    (hi : i < s.length) (f : Nat)
    (hm : matchPrep alts (prevAt s i) (s.drop i) = none) :
    firstCapture alts (f + 1) (prevAt s i) (s.drop i)
      = firstCapture alts f (prevAt s (i + 1)) (s.drop (i + 1)) := by
  rw [prevAt_succ hi]
  conv_lhs => rw [List.drop_eq_getElem_cons hi]
  rw [List.drop_eq_getElem_cons hi] at hm
  simp only [firstCapture]
  rw [hm]

theorem firstCapture_step_some {alts : List (List Char)} {s : List Char} {i : Nat}
    {cap rest : List Char} (hi : i < s.length) (f : Nat)
    (hm : matchPrep alts (prevAt s i) (s.drop i) = some (cap, rest)) :
    firstCapture alts (f + 1) (prevAt s i) (s.drop i) = some cap := by
  conv_lhs => rw [List.drop_eq_getElem_cons hi]
  rw [List.drop_eq_getElem_cons hi] at hm
  simp only [firstCapture]
  rw [hm]

theorem scanCaptures_fuel (alts : List (List Char)) :
    ∀ (n : Nat) (l : List Char) (f₁ f₂ : Nat) (prev : Option Char),
      l.length ≤ n → l.length ≤ f₁ → l.length ≤ f₂ →
      scanCaptures alts f₁ prev l = scanCaptures alts f₂ prev l := by
  intro n
  induction n with
  | zero =>
    intro l f₁ f₂ prev h0 _ _
    have : l = [] := List.eq_nil_of_length_eq_zero (Nat.le_zero.mp h0)
    subst this
    rw [scanCaptures_nil, scanCaptures_nil]
  | succ n ih =>
    intro l f₁ f₂ prev hn h1 h2
    cases l with
    | nil => rw [scanCaptures_nil, scanCaptures_nil]
    | cons c r =>
      have hlc : (c :: r).length = r.length + 1 := rfl
      obtain ⟨g₁, rfl⟩ : ∃ g, f₁ = g + 1 := ⟨f₁ - 1, by omega⟩
      obtain ⟨g₂, rfl⟩ : ∃ g, f₂ = g + 1 := ⟨f₂ - 1, by omega⟩
      simp only [scanCaptures]
      cases hm : matchPrep alts prev (c :: r) with
      | some pr =>
        obtain ⟨cap, rest⟩ := pr
        simp only
        have hrl : rest.length < (c :: r).length := matchPrep_rest_lt hm
        rw [ih rest g₁ g₂ (some (cap.getLastD c)) (by omega) (by omega) (by omega)]
      | none =>
        exact ih r g₁ g₂ (some c) (by omega) (by omega) (by omega)

theorem firstCapture_fuel (alts : List (List Char)) :
    ∀ (n : Nat) (l : List Char) (f₁ f₂ : Nat) (prev : Option Char),
      l.length ≤ n → l.length ≤ f₁ → l.length ≤ f₂ →
      firstCapture alts f₁ prev l = firstCapture alts f₂ prev l := by
  intro n
  induction n with
  | zero =>
    intro l f₁ f₂ prev h0 _ _
    have : l = [] := List.eq_nil_of_length_eq_zero (Nat.le_zero.mp h0)
    subst this
    rw [firstCapture_nil, firstCapture_nil]
  | succ n ih =>
    intro l f₁ f₂ prev hn h1 h2
    cases l with
    | nil => rw [firstCapture_nil, firstCapture_nil]
    | cons c r =>
      have hlc : (c :: r).length = r.length + 1 := rfl
      obtain ⟨g₁, rfl⟩ : ∃ g, f₁ = g + 1 := ⟨f₁ - 1, by omega⟩
      obtain ⟨g₂, rfl⟩ : ∃ g, f₂ = g + 1 := ⟨f₂ - 1, by omega⟩
      simp only [firstCapture]
      cases hm : matchPrep alts prev (c :: r) with
      | some pr => simp only
      | none =>
        exact ih r g₁ g₂ (some c) (by omega) (by omega) (by omega)

theorem range'_split {s : List Char} {i : Nat} (hi : i < s.length) :
    List.range' i (s.length - i) = i :: List.range' (i + 1) (s.length - (i + 1)) := by
  have h : s.length - i = (s.length - (i + 1)) + 1 := by omega
  rw [h, List.range'_succ]

theorem idxScan_skip {alts : List (List Char)} {s : List Char} {i g : Nat}
    (hi : i < s.length) (hpred : (matchAtIdx alts s i).isSome = false) :
    idxScan alts s (g + 1) i = idxScan alts s (g + 1) (i + 1) := by
  conv_lhs => rw [idxScan, range'_split hi, List.find?_cons]
  rw [hpred]
  conv_rhs => rw [idxScan]

theorem idxScan_hit {alts : List (List Char)} {s : List Char} {i g : Nat}
    {cap : List Char} {k : Nat} (hi : i < s.length)
    (hm : matchAtIdx alts s i = some (cap, k)) :
    idxScan alts s (g + 1) i = cap :: idxScan alts s g (i + k) := by
  have hpred : (matchAtIdx alts s i).isSome = true := by rw [hm]; rfl
  conv_lhs => rw [idxScan, range'_split hi, List.find?_cons]
  rw [hpred]
  show (match matchAtIdx alts s i with
        | none => []
        | some (cap, k) => cap :: idxScan alts s g (i + k)) = _
  rw [hm]

theorem idxScan_stop {alts : List (List Char)} {s : List Char} {i g : Nat}
    (hi : s.length ≤ i) : idxScan alts s (g + 1) i = [] := by
  rw [idxScan]
  have h : s.length - i = 0 := by omega
  rw [h]
  rfl

theorem scanCaptures_eq_idxScan (alts : List (List Char)) :
    ∀ (n : Nat) (s : List Char) (i f g : Nat),
      s.length - i ≤ n → s.length - i ≤ f → s.length - i < g →
      scanCaptures alts f (prevAt s i) (s.drop i) = idxScan alts s g i := by
  intro n
  induction n with
  | zero =>
    intro s i f g h0 hf hg
    have hi : s.length ≤ i := by omega
    obtain ⟨g', rfl⟩ : ∃ g', g = g' + 1 := ⟨g - 1, by omega⟩
    rw [List.drop_eq_nil_of_le hi, scanCaptures_nil, idxScan_stop hi]
  | succ n ih =>
    intro s i f g h0 hf hg
    by_cases hi : i < s.length
    · obtain ⟨g', rfl⟩ : ∃ g', g = g' + 1 := ⟨g - 1, by omega⟩
      obtain ⟨f', rfl⟩ : ∃ f', f = f' + 1 := ⟨f - 1, by omega⟩
      cases hm : matchPrep alts (prevAt s i) (s.drop i) with
      | none =>
        have hpred : (matchAtIdx alts s i).isSome = false := by
          unfold matchAtIdx
          rw [hm]
          rfl
        rw [idxScan_skip hi hpred, scanCaptures_step_none hi f' hm]
        exact ih s (i + 1) f' (g' + 1) (by omega) (by omega) (by omega)
      | some pr =>
        obtain ⟨cap, rest⟩ := pr
        have hAt : matchAtIdx alts s i = some (cap, (s.drop i).length - rest.length) := by
          unfold matchAtIdx
          rw [hm]
          rfl
        obtain ⟨hk1, hk2, _, _⟩ := matchPrep_at_decomp hm
        have hdl : (s.drop i).length = s.length - i := List.length_drop i s
        rw [idxScan_hit hi hAt, scanCaptures_step_some hi f' hm]
        have := ih s (i + ((s.drop i).length - rest.length)) f' g'
          (by omega) (by omega) (by omega)
        rw [this]
    · have hle : s.length ≤ i := by omega
      obtain ⟨g', rfl⟩ : ∃ g', g = g' + 1 := ⟨g - 1, by omega⟩
      rw [List.drop_eq_nil_of_le hle, scanCaptures_nil, idxScan_stop hle]

theorem firstCapture_eq_findSome (alts : List (List Char)) :
    ∀ (n : Nat) (s : List Char) (i f : Nat),
      s.length - i ≤ n → s.length - i ≤ f →
      firstCapture alts f (prevAt s i) (s.drop i)
        = (List.range' i (s.length - i)).findSome?
            (fun j => (matchPrep alts (prevAt s j) (s.drop j)).map Prod.fst) := by
  intro n
  induction n with
  | zero =>
    intro s i f h0 hf
    have hi : s.length ≤ i := by omega
    have h : s.length - i = 0 := by omega
    rw [List.drop_eq_nil_of_le hi, firstCapture_nil, h]
    rfl
  | succ n ih =>
    intro s i f h0 hf
    by_cases hi : i < s.length
    · obtain ⟨f', rfl⟩ : ∃ f', f = f' + 1 := ⟨f - 1, by omega⟩
      rw [range'_split hi, List.findSome?_cons]
      cases hm : matchPrep alts (prevAt s i) (s.drop i) with
      | none =>
        rw [firstCapture_step_none hi f' hm]
        have := ih s (i + 1) f' (by omega) (by omega)
        rw [this]
        rfl
      | some pr =>
        obtain ⟨cap, rest⟩ := pr
        rw [firstCapture_step_some hi f' hm]
        rfl
    · have hle : s.length ≤ i := by omega
      have h : s.length - i = 0 := by omega
      rw [List.drop_eq_nil_of_le hle, firstCapture_nil, h]
      rfl

/-! ### Claims C6 and C7 -/

theorem matchAtIdx_fst (alts : List (List Char)) (s : List Char) (j : Nat) :
    (matchAtIdx alts s j).map Prod.fst
      = (matchPrep alts (prevAt s j) (s.drop j)).map Prod.fst := by
  unfold matchAtIdx
  cases hm : matchPrep alts (prevAt s j) (s.drop j) <;> rfl

/-- C6 amended: the candidate places of a day block are exactly the trimmed
captures of the position-indexed scan that takes, from each resume point, the
match at the least matching position and resumes after its matched text. -/
theorem c6_places_resume_scan (block : String) : locationPlaces block = idxPlaces block := by
  unfold locationPlaces idxPlaces
  congr 1
  exact scanCaptures_eq_idxScan locAlts block.data.length block.data 0
    (block.data.length + 1) (block.data.length + 1) (by omega) (by omega) (by omega)

/-- C6 counterexample: on the block `at the Motel 6 at Old Port` the code
captures the single lowercase-initial, digit-containing phrase
`the Motel 6 at Old Port` (the regex `i` flag also covers the `[A-Z]` class
and `\w` admits digits, and the scan resumes after the matched text), while
the claim's reading — every occurrence of a preposition followed by a
capitalized phrase of letters, apostrophes, ampersands, hyphens and spaces —
yields `["Old Port"]` instead. -/
theorem c6_counterexample :
    locationPlaces "at the Motel 6 at Old Port" = ["the Motel 6 at Old Port"] ∧
    claimPlaces "at the Motel 6 at Old Port" = ["Old Port"] ∧
    locationPlaces "at the Motel 6 at Old Port"
      ≠ claimPlaces "at the Motel 6 at Old Port" := by
  refine ⟨by decide, by decide, by decide⟩

/-- C7 amended: the day's local context is the trimmed capture of the match
of the narrower preposition set at the least matching position — with the `i`
flag applying to the whole pattern, so the phrase's leading letter may be
lowercase — and otherwise the fallback `destination || "the trip
destination"`, which is the supplied destination when nonempty and the
literal string both when no destination was supplied and when the supplied
destination is empty. -/
theorem c7_local_context_first_match (block : String) (odest : Option String)
    (d : String) (hd : d ≠ "") :
    localContextOfBlock block (inferredDestinationOf odest)
      = idxLocalContext block (inferredDestinationOf odest) ∧
    inferredDestinationOf none = "the trip destination" ∧
    inferredDestinationOf (some "") = "the trip destination" ∧
    inferredDestinationOf (some d) = d := by
  refine ⟨?_, rfl, rfl, ?_⟩
  · unfold localContextOfBlock localContextMatch idxLocalContext
    have hb : ∀ j, (matchAtIdx narrowAlts block.data j).map Prod.fst
        = (matchPrep narrowAlts (prevAt block.data j) (block.data.drop j)).map Prod.fst :=
      matchAtIdx_fst narrowAlts block.data
    have hfc : firstCapture narrowAlts (block.data.length + 1) none block.data
        = (List.range' 0 block.data.length).findSome?
            (fun j => (matchPrep narrowAlts (prevAt block.data j)
              (block.data.drop j)).map Prod.fst) := by
      have h0 := firstCapture_eq_findSome narrowAlts block.data.length block.data 0
        (block.data.length + 1) (by omega) (by omega)
      have hzero : block.data.length - 0 = block.data.length := Nat.sub_zero _
      rw [hzero] at h0
      exact h0
    rw [List.range_eq_range']
    simp only [hb]
    rw [hfc]
    cases hfs : (List.range' 0 block.data.length).findSome?
        (fun j => (matchPrep narrowAlts (prevAt block.data j)
          (block.data.drop j)).map Prod.fst) with
    | none => rfl
    | some cap => rfl
  · show (if (d == "") = true then "the trip destination" else d) = d
    have hne : ¬((d == "") = true) := by simpa using hd
    rw [if_neg hne]

/-- C7 amended, witness. -/
theorem c7_local_context_first_match_witness :
    localContextOfBlock "stroll in Lyon tonight" (inferredDestinationOf (some "Paris"))
      = idxLocalContext "stroll in Lyon tonight" (inferredDestinationOf (some "Paris")) ∧
    inferredDestinationOf none = "the trip destination" ∧
    inferredDestinationOf (some "") = "the trip destination" ∧
    inferredDestinationOf (some "Paris") = "Paris" :=
  c7_local_context_first_match "stroll in Lyon tonight" (some "Paris") "Paris" (by decide)

/-- C7 counterexample: on the block `wander in the old town` with supplied
destination `Paris`, the code's local context is the lowercase-initial
capture `the old town` (the `i` flag covers the `[A-Z]` class), while the
claim — which only admits capitalized phrases and otherwise falls back to the
supplied destination — predicts `Paris`. -/
theorem c7_counterexample :
    localContextOfBlock "wander in the old town" (inferredDestinationOf (some "Paris"))
      = "the old town" ∧
    claimLocalContext "wander in the old town" (some "Paris") = "Paris" ∧
    localContextOfBlock "wander in the old town" (inferredDestinationOf (some "Paris"))
      ≠ claimLocalContext "wander in the old town" (some "Paris") := by
  refine ⟨by decide, by decide, by decide⟩

/-! ### Claim C10: day segments versus day titles -/

theorem dropWhile_len_le (p : Char → Bool) (l : List Char) :
    (l.dropWhile p).length ≤ l.length := by
  induction l with
  | nil => simp
  | cons c r ih =>
    by_cases hc : p c
    · rw [List.dropWhile_cons_of_pos hc]
      exact Nat.le_trans ih (Nat.le_succ _)
    · rw [List.dropWhile_cons_of_neg hc]

theorem matchDayNum_parts {l rest : List Char} (h : matchDayNum l = some rest) :
    ∃ con, l = con ++ rest ∧ con ≠ [] := by
  unfold matchDayNum at h
  cases he : exactStrip ("**Day".data) l with
  | none => rw [he] at h; simp at h
  | some l1 =>
    rw [he] at h
    simp only [Option.bind] at h
    cases hw : run1 wsChar l1 with
    | none => rw [hw] at h; simp at h
    | some p1 =>
      rw [hw] at h
      simp only [Option.bind] at h
      cases hd : run1 Char.isDigit p1.2 with
      | none => rw [hd] at h; simp at h
      | some p2 =>
        rw [hd] at h
        simp only [Option.map] at h
        injection h with h2
        have hel := exactStrip_eq he
        obtain ⟨hw1, _⟩ := run1_parts hw
        obtain ⟨hd1, _⟩ := run1_parts hd
        refine ⟨"**Day".data ++ p1.1 ++ p2.1, ?_, ?_⟩
        · rw [hel, hw1, hd1, ← h2]
          simp
        · have hdata : "**Day".data = ['*', '*', 'D', 'a', 'y'] := rfl
          simp [hdata]

theorem matchDayNum_head {c : Char} {r rest : List Char}
    (h : matchDayNum (c :: r) = some rest) : c = '*' := by
  unfold matchDayNum at h
  cases he : exactStrip ("**Day".data) (c :: r) with
  | none => rw [he] at h; simp at h
  | some l1 =>
    have hel := exactStrip_eq he
    have hdata : "**Day".data = ['*', '*', 'D', 'a', 'y'] := rfl
    rw [hdata] at hel
    simp only [List.cons_append] at hel
    injection hel

theorem matchDayNum_ne_star {c : Char} (r : List Char) (hc : ¬ c = '*') :
    matchDayNum (c :: r) = none := by
  unfold matchDayNum
  have hdata : "**Day".data = ['*', '*', 'D', 'a', 'y'] := rfl
  rw [hdata]
  simp only [exactStrip]
  rw [if_neg (by simpa using hc)]
  rfl

theorem splitPieces_nil (f : Nat) (acc : List Char) :
    splitPieces f [] acc = [acc.reverse] := by
  cases f <;> rfl

theorem titleScan_nil (f : Nat) : titleScan f [] = [] := by
  cases f <;> rfl

theorem splitPieces_len :
    ∀ (n : Nat) (l : List Char) (f₁ f₂ : Nat) (acc₁ acc₂ : List Char),
      l.length ≤ n → l.length ≤ f₁ → l.length ≤ f₂ →
      (splitPieces f₁ l acc₁).length = (splitPieces f₂ l acc₂).length := by
  intro n
  induction n with
  | zero =>
    intro l f₁ f₂ acc₁ acc₂ h0 _ _
    have : l = [] := List.eq_nil_of_length_eq_zero (Nat.le_zero.mp h0)
    subst this
    rw [splitPieces_nil, splitPieces_nil]
    rfl
  | succ n ih =>
    intro l f₁ f₂ acc₁ acc₂ hn h1 h2
    cases l with
    | nil =>
      rw [splitPieces_nil, splitPieces_nil]
      rfl
    | cons c r =>
      have hlc : (c :: r).length = r.length + 1 := rfl
      obtain ⟨g₁, rfl⟩ : ∃ g, f₁ = g + 1 := ⟨f₁ - 1, by omega⟩
      obtain ⟨g₂, rfl⟩ : ∃ g, f₂ = g + 1 := ⟨f₂ - 1, by omega⟩
      simp only [splitPieces]
      cases hm : matchDayNum (c :: r) with
      | some rest =>
        obtain ⟨con, hcon, hne⟩ := matchDayNum_parts hm
        have hrl : rest.length < (c :: r).length := by
          rw [hcon]
          have : 0 < con.length := List.length_pos.2 hne
          simp only [List.length_append]
          omega
        simp only [List.length_cons] at hn h1 h2 hrl ⊢
        have := ih rest g₁ g₂ [] [] (by omega) (by omega) (by omega)
        omega
      | none =>
        simp only [List.length_cons] at hn h1 h2
        exact ih r g₁ g₂ (c :: acc₁) (c :: acc₂) (by omega) (by omega) (by omega)

theorem matchTitleTok_of_day {l rest : List Char} (hm : matchDayNum l = some rest) :
    matchTitleTok l = some (rest.dropWhile (fun c => !(c == '*'))) := by
  unfold matchTitleTok
  rw [hm]
  rfl

theorem matchTitleTok_none {l : List Char} (hm : matchDayNum l = none) :
    matchTitleTok l = none := by
  unfold matchTitleTok
  rw [hm]
  rfl

theorem titleScan_fuel :
    ∀ (n : Nat) (l : List Char) (f₁ f₂ : Nat),
      l.length ≤ n → l.length ≤ f₁ → l.length ≤ f₂ →
      titleScan f₁ l = titleScan f₂ l := by
  intro n
  induction n with
  | zero =>
    intro l f₁ f₂ h0 _ _
    have : l = [] := List.eq_nil_of_length_eq_zero (Nat.le_zero.mp h0)
    subst this
    rw [titleScan_nil, titleScan_nil]
  | succ n ih =>
    intro l f₁ f₂ hn h1 h2
    cases l with
    | nil => rw [titleScan_nil, titleScan_nil]
    | cons c r =>
      have hlc : (c :: r).length = r.length + 1 := rfl
      obtain ⟨g₁, rfl⟩ : ∃ g, f₁ = g + 1 := ⟨f₁ - 1, by omega⟩
      obtain ⟨g₂, rfl⟩ : ∃ g, f₂ = g + 1 := ⟨f₂ - 1, by omega⟩
      simp only [titleScan]
      cases hm : matchTitleTok (c :: r) with
      | some rest =>
        cases hd : matchDayNum (c :: r) with
        | none => rw [matchTitleTok_none hd] at hm; exact absurd hm (by simp)
        | some rest0 =>
          rw [matchTitleTok_of_day hd] at hm
          injection hm with hm'
          obtain ⟨con, hcon, hne⟩ := matchDayNum_parts hd
          have hr0 : rest0.length < (c :: r).length := by
            rw [hcon]
            have : 0 < con.length := List.length_pos.2 hne
            simp only [List.length_append]
            omega
          have hle := dropWhile_len_le (fun c => !(c == '*')) rest0
          rw [hm'] at hle
          have hrl : rest.length < (c :: r).length := by
            have hcc : (c :: r).length = r.length + 1 := rfl
            omega
          simp only [List.length_cons] at hn h1 h2 hrl hr0
          simp only
          rw [ih rest g₁ g₂ (by omega) (by omega) (by omega)]
      | none =>
        simp only [List.length_cons] at hn h1 h2
        exact ih r g₁ g₂ (by omega) (by omega) (by omega)

theorem splitPieces_skip_nonstar :
    ∀ (l : List Char) (f₁ f₂ : Nat) (acc₁ acc₂ : List Char),
      l.length ≤ f₁ → l.length ≤ f₂ →
      (splitPieces f₁ l acc₁).length
        = (splitPieces f₂ (l.dropWhile (fun c => !(c == '*'))) acc₂).length := by
  intro l
  induction l with
  | nil =>
    intro f₁ f₂ acc₁ acc₂ _ _
    rw [List.dropWhile_nil, splitPieces_nil, splitPieces_nil]
    rfl
  | cons c r ih =>
    intro f₁ f₂ acc₁ acc₂ h1 h2
    by_cases hc : c = '*'
    · have hp : ((fun c => !(c == '*')) c) = false := by simp [hc]
      rw [List.dropWhile_cons_of_neg (by simp [hp])]
      exact splitPieces_len (c :: r).length (c :: r) f₁ f₂ acc₁ acc₂ le_rfl h1 h2
    · have hp : ((fun c => !(c == '*')) c) = true := by simpa using hc
      rw [List.dropWhile_cons_of_pos (by simpa using hc)]
      have hlc : (c :: r).length = r.length + 1 := rfl
      obtain ⟨g₁, rfl⟩ : ∃ g, f₁ = g + 1 := ⟨f₁ - 1, by omega⟩
      conv_lhs => rw [splitPieces]
      rw [matchDayNum_ne_star r hc]
      exact ih g₁ f₂ (c :: acc₁) acc₂ (by omega) (by omega)

theorem splitPieces_eq_titleScan_succ :
    ∀ (n : Nat) (l : List Char) (f : Nat),
      l.length ≤ n → l.length ≤ f →
      (splitPieces f l []).length = (titleScan f l).length + 1 := by
  intro n
  induction n with
  | zero =>
    intro l f h0 _
    have : l = [] := List.eq_nil_of_length_eq_zero (Nat.le_zero.mp h0)
    subst this
    rw [splitPieces_nil, titleScan_nil]
    rfl
  | succ n ih =>
    intro l f hn hf
    cases l with
    | nil =>
      rw [splitPieces_nil, titleScan_nil]
      rfl
    | cons c r =>
      have hlc : (c :: r).length = r.length + 1 := rfl
      obtain ⟨g, rfl⟩ : ∃ g, f = g + 1 := ⟨f - 1, by omega⟩
      cases hm : matchDayNum (c :: r) with
      | none =>
        have hmt : matchTitleTok (c :: r) = none := matchTitleTok_none hm
        conv_lhs => rw [splitPieces]
        conv_rhs => rw [titleScan]
        rw [hm, hmt]
        simp only [List.length_cons] at hn hf
        have hacc := splitPieces_len r.length r g g (c :: []) [] le_rfl (by omega) (by omega)
        rw [hacc]
        exact ih r g (by omega) (by omega)
      | some rest =>
        have hmt : matchTitleTok (c :: r)
            = some (rest.dropWhile (fun c => !(c == '*'))) := matchTitleTok_of_day hm
        conv_lhs => rw [splitPieces]
        conv_rhs => rw [titleScan]
        rw [hm, hmt]
        simp only [List.length_cons]
        obtain ⟨con, hcon, hne⟩ := matchDayNum_parts hm
        have hr0 : rest.length < (c :: r).length := by
          rw [hcon]
          have : 0 < con.length := List.length_pos.2 hne
          simp only [List.length_append]
          omega
        have hdw := dropWhile_len_le (fun c => !(c == '*')) rest
        simp only [List.length_cons] at hn hf hr0
        have hskip := splitPieces_skip_nonstar rest g g [] []
          (by omega) (by omega)
        have hih := ih (rest.dropWhile (fun c => !(c == '*'))) g
          (by omega) (by omega)
        omega

theorem titleScan_mem_star :
    ∀ (f : Nat) (l : List Char) (t : List Char), t ∈ titleScan f l → ∃ u, t = '*' :: u := by
  intro f
  induction f with
  | zero => intro l t ht; simp [titleScan] at ht
  | succ g ih =>
    intro l t ht
    cases l with
    | nil => simp [titleScan] at ht
    | cons c r =>
      rw [titleScan] at ht
      cases hm : matchTitleTok (c :: r) with
      | none =>
        rw [hm] at ht
        exact ih r t ht
      | some rest =>
        rw [hm] at ht
        simp only [List.mem_cons] at ht
        cases ht with
        | inr hrec => exact ih rest t hrec
        | inl hchunk =>
          cases hd : matchDayNum (c :: r) with
          | none => rw [matchTitleTok_none hd] at hm; exact absurd hm (by simp)
          | some rest0 =>
            have hstar : c = '*' := matchDayNum_head hd
            have hrlt : rest.length < (c :: r).length := by
              rw [matchTitleTok_of_day hd] at hm
              injection hm with hm'
              obtain ⟨con, hcon, hne⟩ := matchDayNum_parts hd
              have h1 : rest0.length < (c :: r).length := by
                rw [hcon]
                have : 0 < con.length := List.length_pos.2 hne
                simp only [List.length_append]
                omega
              have h2 := dropWhile_len_le (fun c => !(c == '*')) rest0
              rw [hm'] at h2
              omega
            obtain ⟨k, hk⟩ : ∃ k, (c :: r).length - rest.length = k + 1 := by
              have hcc : (c :: r).length = r.length + 1 := rfl
              exact ⟨(c :: r).length - rest.length - 1, by omega⟩
            rw [hk] at hchunk
            rw [List.take_succ_cons] at hchunk
            exact ⟨List.take k r, by rw [hchunk, hstar]⟩

theorem dropWhile_ne_nil_of_exists {p : Char → Bool} {l : List Char}
    (h : ∃ x ∈ l, p x = false) : l.dropWhile p ≠ [] := by
  induction l with
  | nil => simp at h
  | cons c r ih =>
    by_cases hc : p c
    · rw [List.dropWhile_cons_of_pos hc]
      apply ih
      obtain ⟨x, hx, hpx⟩ := h
      cases List.mem_cons.mp hx with
      | inl hxc => rw [hxc] at hpx; rw [hpx] at hc; exact absurd hc (by simp)
      | inr hxr => exact ⟨x, hxr, hpx⟩
    · rw [List.dropWhile_cons_of_neg hc]
      simp

theorem trimC_cons_star_ne_nil (u : List Char) : trimC ('*' :: u) ≠ [] := by
  unfold trimC
  have hs : wsChar '*' = false := by decide
  rw [List.dropWhile_cons_of_neg (by simp [hs])]
  intro hcontra
  have h1 : ('*' :: u).reverse.dropWhile wsChar = [] := by
    have := congrArg List.reverse hcontra
    simpa using this
  have h2 : ('*' :: u).reverse.dropWhile wsChar ≠ [] := by
    apply dropWhile_ne_nil_of_exists
    exact ⟨'*', by simp, hs⟩
  exact absurd h1 h2

/-- C10: for every input text, the split on the day-heading pattern yields
exactly one segment per title recovered by the title pattern, every recovered
title is nonempty (it starts with `*` and survives trimming), and therefore
the rendered title of every day section is the recovered title — the
synthesized fallback `Day <index+1>` is never used. -/
theorem c10_titles_match_blocks (itin : String) :
    (dayBlocks itin).length = (dayTitles itin).length ∧
    (∀ t ∈ dayTitles itin, t ≠ "") ∧
    (∀ i, i < (dayBlocks itin).length →
      renderTitle itin i = (dayTitles itin).getD i "") := by
  have hlen : (dayBlocks itin).length = (dayTitles itin).length := by
    unfold dayBlocks splitSegments dayTitles
    rw [List.length_drop, List.length_map, List.length_map]
    rw [splitPieces_eq_titleScan_succ itin.data.length itin.data (itin.data.length + 1)
      le_rfl (by omega)]
    omega
  have hne : ∀ t ∈ dayTitles itin, t ≠ "" := by
    intro t ht
    unfold dayTitles at ht
    obtain ⟨chunk, hchunk, hmk⟩ := List.mem_map.mp ht
    obtain ⟨u, hu⟩ := titleScan_mem_star _ _ chunk hchunk
    rw [← hmk, hu]
    intro hcontra
    have hdata : trimC ('*' :: u) = [] := by
      have := congrArg String.data hcontra
      simpa using this
    exact trimC_cons_star_ne_nil u hdata
  refine ⟨hlen, hne, ?_⟩
  intro i hi
  have hti : i < (dayTitles itin).length := hlen ▸ hi
  have hmem : (dayTitles itin).getD i "" ∈ dayTitles itin := by
    rw [List.getD_eq_getElem?_getD, List.getElem?_eq_getElem hti]
    simp only [Option.getD_some]
    exact List.getElem_mem hti
  have hgne : ¬(((dayTitles itin).getD i "" == "") = true) := by
    simpa using hne _ hmem
  unfold renderTitle
  rw [if_neg hgne]

/-- C10 witness: a hand-written itinerary with one day heading. -/
theorem c10_titles_match_blocks_witness :
    renderTitle "x\n**Day 1 fun" 0 = (dayTitles "x\n**Day 1 fun").getD 0 "" :=
  (c10_titles_match_blocks "x\n**Day 1 fun").2.2 0 (by decide)

/-! ### Claim C9: line structure of the generated itinerary -/

theorem splitNL_ne_nil (l : List Char) : splitNL l ≠ [] := by
  cases l with
  | nil => simp [splitNL]
  | cons c r =>
    simp only [splitNL]
    split
    · simp
    · cases splitNL r <;> simp

theorem splitNL_append_left {x : List Char} (y : List Char) (hx : noNL x) :
    splitNL (x ++ y) = (x ++ (splitNL y).headD []) :: (splitNL y).tail := by
  induction x with
  | nil =>
    simp only [List.nil_append]
    cases hsp : splitNL y with
    | nil => exact absurd hsp (splitNL_ne_nil y)
    | cons h t => simp
  | cons c r ih =>
    have hc : ¬ c = '\n' := hx c (by simp)
    have hr : noNL r := fun d hd => hx d (by simp [hd])
    simp only [List.cons_append, splitNL]
    rw [if_neg (by simpa using hc)]
    simp only [List.append_eq]
    rw [ih hr]

theorem splitNL_chunk {x : List Char} (y : List Char) (hx : noNL x) :
    splitNL (x ++ '\n' :: y) = x :: splitNL y := by
  rw [splitNL_append_left ('\n' :: y) hx]
  have : splitNL ('\n' :: y) = [] :: splitNL y := by
    simp [splitNL]
  rw [this]
  simp

theorem splitNL_no_nl {x : List Char} (hx : noNL x) : splitNL x = [x] := by
  have := splitNL_append_left [] hx
  simpa [splitNL] using this

theorem splitNL_joinLines :
    ∀ (ls : List (List Char)), ls ≠ [] → (∀ l ∈ ls, noNL l) →
      splitNL (joinLines ls) = ls := by
  intro ls
  induction ls with
  | nil => intro h; exact absurd rfl h
  | cons x t ih =>
    intro _ hls
    cases t with
    | nil =>
      show splitNL (joinLines [x]) = [x]
      rw [show joinLines [x] = x from rfl]
      exact splitNL_no_nl (hls x (by simp))
    | cons y t2 =>
      show splitNL (x ++ '\n' :: joinLines (y :: t2)) = x :: y :: t2
      rw [splitNL_chunk _ (hls x (by simp))]
      rw [ih (by simp) (fun l hl => hls l (by simp [hl]))]

theorem joinLines_append :
    ∀ (ls₁ ls₂ : List (List Char)), ls₁ ≠ [] → ls₂ ≠ [] →
      joinLines (ls₁ ++ ls₂) = joinLines ls₁ ++ '\n' :: joinLines ls₂ := by
  intro ls₁
  induction ls₁ with
  | nil => intro ls₂ h; exact absurd rfl h
  | cons x t ih =>
    intro ls₂ _ h2
    cases t with
    | nil =>
      cases ls₂ with
      | nil => exact absurd rfl h2
      | cons y t2 =>
        show joinLines (x :: y :: t2) = x ++ '\n' :: joinLines (y :: t2)
        rfl
    | cons z t2 =>
      show joinLines (x :: ((z :: t2) ++ ls₂)) = _
      have h1 : joinLines (x :: ((z :: t2) ++ ls₂)) = x ++ '\n' :: joinLines ((z :: t2) ++ ls₂) := rfl
      rw [h1, ih ls₂ (by simp) h2]
      rw [show joinLines (x :: z :: t2) = x ++ '\n' :: joinLines (z :: t2) from rfl]
      simp [List.append_assoc]

theorem joinLines_flatten :
    ∀ (bs : List (List (List Char))), bs ≠ [] → (∀ b ∈ bs, b ≠ []) →
      joinLines (bs.map joinLines) = joinLines bs.flatten := by
  intro bs
  induction bs with
  | nil => intro h _; exact absurd rfl h
  | cons b t ih =>
    intro _ hne
    cases t with
    | nil => simp [joinLines]
    | cons b2 t2 =>
      have hfne : (b2 :: t2).flatten ≠ [] := by
        have hb2 : b2 ≠ [] := hne b2 (by simp)
        show b2 ++ t2.flatten ≠ []
        intro hcontra
        exact hb2 (List.append_eq_nil.mp hcontra).1
      have hmapne : (b2 :: t2).map joinLines ≠ [] := by simp
      have h1 : (b :: b2 :: t2).map joinLines = joinLines b :: (b2 :: t2).map joinLines := rfl
      rw [h1]
      have h2 : joinLines (joinLines b :: (b2 :: t2).map joinLines)
          = joinLines b ++ '\n' :: joinLines ((b2 :: t2).map joinLines) := by
        cases hmap : (b2 :: t2).map joinLines with
        | nil => exact absurd hmap hmapne
        | cons m mt => rfl
      rw [h2, ih (by simp) (fun x hx => hne x (by simp [hx]))]
      have h3 : (b :: b2 :: t2).flatten = b ++ (b2 :: t2).flatten := rfl
      rw [h3, joinLines_append b ((b2 :: t2).flatten) (hne b (by simp)) hfne]

theorem intercalate_go_data (xs : List String) :
    ∀ acc : String, (String.intercalate.go acc "\n" xs).data
      = acc.data ++ (xs.map (fun x => '\n' :: x.data)).flatten := by
  induction xs with
  | nil => intro acc; simp [String.intercalate.go]
  | cons x xs ih =>
    intro acc
    simp [String.intercalate.go, ih, String.data_append, List.append_assoc]

theorem joinLines_cons_eq_flatten (h : List Char) (t : List (List Char)) :
    joinLines (h :: t) = h ++ (t.map (fun x => '\n' :: x)).flatten := by
  induction t generalizing h with
  | nil => simp [joinLines]
  | cons r t ih =>
    show h ++ '\n' :: joinLines (r :: t) = _
    rw [ih r]
    simp [List.append_assoc]

theorem intercalate_data_join (bs : List String) :
    (String.intercalate "\n" bs).data = joinLines (bs.map String.data) := by
  cases bs with
  | nil => rfl
  | cons b rest =>
    show (String.intercalate.go b "\n" rest).data = _
    rw [intercalate_go_data]
    simp only [List.map_cons]
    rw [joinLines_cons_eq_flatten, List.map_map]
    rfl

theorem digitChar_ne_nl (m : Nat) : ¬ Nat.digitChar m = '\n' := by
  by_cases h16 : m < 16
  · interval_cases m <;> decide
  · push_neg at h16
    have c0 : ¬ m = 0 := by omega
    have c1 : ¬ m = 1 := by omega
    have c2 : ¬ m = 2 := by omega
    have c3 : ¬ m = 3 := by omega
    have c4 : ¬ m = 4 := by omega
    have c5 : ¬ m = 5 := by omega
    have c6 : ¬ m = 6 := by omega
    have c7 : ¬ m = 7 := by omega
    have c8 : ¬ m = 8 := by omega
    have c9 : ¬ m = 9 := by omega
    have ca : ¬ m = 10 := by omega
    have cb : ¬ m = 11 := by omega
    have cc : ¬ m = 12 := by omega
    have cd : ¬ m = 13 := by omega
    have ce : ¬ m = 14 := by omega
    have cf : ¬ m = 15 := by omega
    have hstar : Nat.digitChar m = '*' := by
      unfold Nat.digitChar
      rw [if_neg c0, if_neg c1, if_neg c2, if_neg c3, if_neg c4, if_neg c5,
          if_neg c6, if_neg c7, if_neg c8, if_neg c9, if_neg ca, if_neg cb,
          if_neg cc, if_neg cd, if_neg ce, if_neg cf]
    rw [hstar]
    decide

theorem toDigitsCore_no_nl (b : Nat) :
    ∀ (fuel n : Nat) (ds : List Char), (∀ c ∈ ds, ¬ c = '\n') →
      ∀ c ∈ Nat.toDigitsCore b fuel n ds, ¬ c = '\n' := by
  intro fuel
  induction fuel with
  | zero =>
    intro n ds hds c hc
    rw [Nat.toDigitsCore] at hc
    exact hds c hc
  | succ f ih =>
    intro n ds hds c hc
    rw [Nat.toDigitsCore] at hc
    split at hc
    · cases List.mem_cons.mp hc with
      | inl h => rw [h]; exact digitChar_ne_nl _
      | inr h => exact hds c h
    · refine ih (n / b) (Nat.digitChar (n % b) :: ds) ?_ c hc
      intro d hd
      cases List.mem_cons.mp hd with
      | inl h => rw [h]; exact digitChar_ne_nl _
      | inr h => exact hds d h

theorem toString_nat_no_nl (n : Nat) : noNL (toString n).data := by
  intro c hc
  have hdata : (toString n).data = Nat.toDigits 10 n := rfl
  rw [hdata] at hc
  exact toDigitsCore_no_nl 10 (n + 1) n [] (by simp) c hc

theorem regionCatalog_no_nl {key : String} {cities : List String}
    (h : regionToCities key = some cities) :
    ∀ s ∈ cities, noNL s.data := by
  unfold regionToCities regionCatalog at h
  simp only [List.lookup] at h
  repeat' split at h
  all_goals first
    | (injection h with h2; subst h2; simp only [noNL]; decide)
    | (exact absurd h (by simp))

theorem getD_no_nl {L : List String} (hL : ∀ s ∈ L, noNL s.data) (j : Nat) :
    noNL ((L.getD j "").data) := by
  by_cases hj : j < L.length
  · rw [List.getD_eq_getElem?_getD, List.getElem?_eq_getElem hj]
    exact hL _ (List.getElem_mem hj)
  · rw [List.getD_eq_default L "" (by omega)]
    intro c hc
    simp at hc

theorem bracketLookup_own {key : String} {cities : List String}
    (h : bracketLookup key = BracketHit.own cities) :
    regionToCities key = some cities := by
  unfold bracketLookup at h
  cases hr : regionToCities key with
  | some cs =>
    rw [hr] at h
    injection h with h2
    rw [h2]
  | none =>
    rw [hr] at h
    by_cases hp : protoProps.contains key = true
    · rw [if_pos hp] at h
      exact BracketHit.noConfusion h
    · rw [if_neg hp] at h
      exact BracketHit.noConfusion h

theorem cityOfDay_no_nl {destination : String} (hd : noNL destination.data) (i : Nat) :
    noNL (cityOfDay destination i).data := by
  cases hbr : bracketLookup (lowerS destination) with
  | own cities =>
    have hc : cityOfDay destination i = cities.getD (i % cities.length) "" := by
      simp only [cityOfDay, hbr]
    rw [hc]
    exact getD_no_nl (fun s hs => regionCatalog_no_nl (bracketLookup_own hbr) s hs) _
  | proto =>
    have hc : cityOfDay destination i = "undefined" := by
      simp only [cityOfDay, hbr]
    rw [hc]
    decide
  | miss =>
    have hc : cityOfDay destination i
        = [destination].getD (i % [destination].length) "" := by
      simp only [cityOfDay, hbr]
    rw [hc]
    apply getD_no_nl
    intro s hs
    simp only [List.mem_singleton] at hs
    rw [hs]
    exact hd

theorem restaurants_no_nl (j : Nat) : noNL ((exampleRestaurants.getD j "").data) :=
  getD_no_nl (by decide) j

theorem activities_no_nl (j : Nat) : noNL ((exampleActivities.getD j "").data) :=
  getD_no_nl (by decide) j

theorem times_no_nl (j : Nat) : noNL ((displayedTimes.getD j "").data) :=
  getD_no_nl (by decide) j

theorem noNL_append {a b : List Char} (ha : noNL a) (hb : noNL b) : noNL (a ++ b) := by
  intro c hc
  cases List.mem_append.mp hc with
  | inl h => exact ha c h
  | inr h => exact hb c h

theorem noNL_data_append {a b : String} (ha : noNL a.data) (hb : noNL b.data) :
    noNL (a ++ b).data := by
  rw [String.data_append]
  exact noNL_append ha hb

theorem noNL_cons {c : Char} {l : List Char} (hc : ¬ c = '\n') (hl : noNL l) :
    noNL (c :: l) := by
  intro d hd
  cases List.mem_cons.mp hd with
  | inl h => rw [h]; exact hc
  | inr h => exact hl d h

theorem dayBlock_data_eq (destination : String) (i : Nat) :
    (dayBlock destination i).data = joinLines (blockChunks destination i) := by
  simp [dayBlock, bulletLine, blockChunks, bulletChunk, headChunk, joinLines,
    String.data_append, List.append_assoc]

theorem bulletChunk_props {t c : String} (ht : noNL t.data) (hc : noNL c.data) :
    noNL (bulletChunk t c) ∧ benignLine (bulletChunk t c) := by
  constructor
  · unfold bulletChunk
    apply noNL_cons (by decide)
    apply noNL_append (by decide)
    apply noNL_append ht
    apply noNL_append (by decide)
    apply noNL_append hc
    decide
  · exact Or.inr ⟨'-', _, rfl, Or.inr (Or.inl rfl)⟩

theorem blockChunks_props {destination : String} (hd : noNL destination.data) (i : Nat) :
    ∀ ch ∈ blockChunks destination i, noNL ch ∧ benignLine ch := by
  intro ch hch
  simp only [blockChunks, List.mem_cons] at hch
  rcases hch with rfl | rfl | rfl | rfl | rfl | rfl | rfl | habs
  · constructor
    · unfold headChunk
      apply noNL_cons (by decide)
      apply noNL_append (by decide)
      apply noNL_append (toString_nat_no_nl (i + 1))
      apply noNL_append (by decide)
      apply noNL_append (cityOfDay_no_nl hd i)
      decide
    · exact Or.inr ⟨'*', _, rfl, Or.inl rfl⟩
  · exact bulletChunk_props (times_no_nl 0)
      (noNL_data_append (by decide) (restaurants_no_nl _))
  · exact bulletChunk_props (times_no_nl 1)
      (noNL_data_append (noNL_data_append (activities_no_nl _) (by decide))
        (cityOfDay_no_nl hd i))
  · exact bulletChunk_props (times_no_nl 2)
      (noNL_data_append (by decide) (restaurants_no_nl _))
  · exact bulletChunk_props (times_no_nl 3)
      (noNL_data_append (activities_no_nl _) (by decide))
  · exact bulletChunk_props (times_no_nl 4)
      (noNL_data_append (by decide) (restaurants_no_nl _))
  · refine ⟨?_, Or.inl rfl⟩
    intro d hd2
    simp at hd2
  · simp at habs

theorem itinerary_chunks (destination : String) (hd : noNL destination.data) (n : Nat) :
    ∃ LS : List (List Char), LS ≠ [] ∧
      (String.intercalate "\n" (itineraryDays destination n)).data = joinLines LS ∧
      ∀ ch ∈ LS, noNL ch ∧ benignLine ch := by
  cases n with
  | zero =>
    refine ⟨[[]], by simp, rfl, ?_⟩
    intro ch hch
    simp only [List.mem_singleton] at hch
    rw [hch]
    exact ⟨by intro c hc; simp at hc, Or.inl rfl⟩
  | succ m =>
    refine ⟨((List.range (m + 1)).map (blockChunks destination)).flatten, ?_, ?_, ?_⟩
    · have h0 : blockChunks destination 0 ∈ (List.range (m + 1)).map (blockChunks destination) := by
        refine List.mem_map.mpr ⟨0, ?_, rfl⟩
        simp
      intro hcontra
      have hmem : headChunk destination 0
          ∈ ((List.range (m + 1)).map (blockChunks destination)).flatten := by
        refine List.mem_flatten.mpr ⟨blockChunks destination 0, h0, ?_⟩
        simp [blockChunks]
      rw [hcontra] at hmem
      simp at hmem
    · rw [intercalate_data_join]
      unfold itineraryDays
      rw [List.map_map]
      have hcong : (List.range (m + 1)).map (String.data ∘ dayBlock destination)
          = ((List.range (m + 1)).map (blockChunks destination)).map joinLines := by
        rw [List.map_map]
        exact List.map_congr_left (fun i _ => dayBlock_data_eq destination i)
      rw [hcong]
      exact joinLines_flatten _ (by simp) (by
        intro b hb
        obtain ⟨i, _, rfl⟩ := List.mem_map.mp hb
        simp [blockChunks])
    · intro ch hch
      obtain ⟨l, hl, hchl⟩ := List.mem_flatten.mp hch
      obtain ⟨i, _, rfl⟩ := List.mem_map.mp hl
      exact blockChunks_props hd i ch hchl

theorem splitNL_take_lines :
    ∀ (y : List Char) (k : Nat),
      ∃ full part rest cut,
        splitNL y = full ++ part :: rest ∧
        splitNL (y.take k) = full ++ [cut] ∧
        cut <+: part := by
  intro y
  induction y with
  | nil =>
    intro k
    exact ⟨[], [], [], [], rfl, by simp [splitNL], List.nil_prefix⟩
  | cons c r ih =>
    intro k
    cases k with
    | zero =>
      cases hsp : splitNL (c :: r) with
      | nil => exact absurd hsp (splitNL_ne_nil _)
      | cons h t =>
        exact ⟨[], h, t, [], by simp [hsp], by simp [splitNL], List.nil_prefix⟩
    | succ j =>
      by_cases hc : c = '\n'
      · subst hc
        obtain ⟨full, part, rest, cut, h1, h2, h3⟩ := ih j
        refine ⟨[] :: full, part, rest, cut, ?_, ?_, h3⟩
        · show splitNL ('\n' :: r) = _
          rw [show splitNL ('\n' :: r) = [] :: splitNL r by simp [splitNL], h1]
          rfl
        · show splitNL ('\n' :: List.take j r) = _
          rw [show splitNL ('\n' :: List.take j r) = [] :: splitNL (List.take j r) by
            simp [splitNL], h2]
          rfl
      · obtain ⟨full, part, rest, cut, h1, h2, h3⟩ := ih j
        have hred : ∀ (z : List Char), splitNL (c :: z)
            = (c :: (splitNL z).headD []) :: (splitNL z).tail := by
          intro z
          have := splitNL_append_left (x := [c]) z (by
            intro d hd2
            simp at hd2
            rw [hd2]
            exact hc)
          simpa using this
        cases full with
        | nil =>
          simp only [List.nil_append] at h1 h2
          refine ⟨[], c :: part, rest, c :: cut, ?_, ?_, ?_⟩
          · rw [hred r, h1]
            rfl
          · show splitNL (c :: List.take j r) = _
            rw [hred (List.take j r), h2]
            rfl
          · exact List.cons_prefix_cons.mpr ⟨rfl, h3⟩
        | cons fh ft =>
          simp only [List.cons_append] at h1 h2
          refine ⟨(c :: fh) :: ft, part, rest, cut, ?_, ?_, h3⟩
          · rw [hred r, h1]
            rfl
          · show splitNL (c :: List.take j r) = _
            rw [hred (List.take j r), h2]
            rfl

theorem splitNL_take_mem {y : List Char} {k : Nat} {ln : List Char}
    (h : ln ∈ splitNL (y.take k)) :
    ∃ ln', ln' ∈ splitNL y ∧ ln <+: ln' := by
  obtain ⟨full, part, rest, cut, h1, h2, h3⟩ := splitNL_take_lines y k
  rw [h2] at h
  rw [h1]
  cases List.mem_append.mp h with
  | inl hfull =>
    exact ⟨ln, by simp [hfull], List.prefix_refl _⟩
  | inr hcut =>
    simp only [List.mem_singleton] at hcut
    rw [hcut]
    exact ⟨part, by simp, h3⟩

theorem dropWhile_eq_drop (p : Char → Bool) :
    ∀ l : List Char, ∃ j, j ≤ l.length ∧ List.dropWhile p l = l.drop j := by
  intro l
  induction l with
  | nil => exact ⟨0, by simp, rfl⟩
  | cons c r ih =>
    by_cases hc : p c
    · obtain ⟨j, hj, hdw⟩ := ih
      refine ⟨j + 1, by simp only [List.length_cons]; omega, ?_⟩
      rw [List.dropWhile_cons_of_pos hc, hdw]
      rfl
    · exact ⟨0, by simp only [List.length_cons]; omega,
        by rw [List.dropWhile_cons_of_neg hc]; rfl⟩

theorem dropTrail_eq_take (l : List Char) : ∃ k, dropTrail l = l.take k := by
  obtain ⟨j, hj, hdw⟩ := dropWhile_eq_drop wsChar l.reverse
  refine ⟨l.length - j, ?_⟩
  unfold dropTrail
  rw [hdw, List.drop_reverse, List.reverse_reverse]

theorem dropTrail_lines_benign {z : List Char}
    (hz : ∀ ln ∈ splitNL z, benignLine ln) :
    ∀ ln ∈ splitNL (dropTrail z), benignLine ln := by
  intro ln hln
  obtain ⟨k, hk⟩ := dropTrail_eq_take z
  rw [hk] at hln
  obtain ⟨ln', hln', hpre⟩ := splitNL_take_mem hln
  have hb := hz ln' hln'
  cases hb with
  | inl hnil =>
    rw [hnil] at hpre
    left
    exact List.prefix_nil.mp hpre
  | inr hcons =>
    obtain ⟨h, u, hln2, hh⟩ := hcons
    rw [hln2] at hpre
    cases ln with
    | nil => exact Or.inl rfl
    | cons a as =>
      obtain ⟨hah, _⟩ := List.cons_prefix_cons.mp hpre
      exact Or.inr ⟨a, as, rfl, hah ▸ hh⟩

theorem dropWhile_append_of_all {p : Char → Bool} :
    ∀ (xs ys : List Char), (∀ c ∈ xs, p c = true) →
      List.dropWhile p (xs ++ ys) = List.dropWhile p ys := by
  intro xs ys hxs
  induction xs with
  | nil => rfl
  | cons c r ih =>
    rw [List.cons_append, List.dropWhile_cons_of_pos (hxs c (by simp))]
    exact ih (fun d hd => hxs d (by simp [hd]))

theorem dropTrail_ne_nil {y : List Char} {c : Char}
    (hc : c ∈ y) (hws : wsChar c = false) : dropTrail y ≠ [] := by
  unfold dropTrail
  intro hcontra
  have h1 : y.reverse.dropWhile wsChar = [] := by
    have := congrArg List.reverse hcontra
    simpa using this
  have h2 : y.reverse.dropWhile wsChar ≠ [] := by
    apply dropWhile_ne_nil_of_exists
    exact ⟨c, by simp [hc], hws⟩
  exact absurd h1 h2

theorem dropTrail_chunk {x y : List Char} (hy : dropTrail y ≠ []) :
    dropTrail (x ++ '\n' :: y) = x ++ '\n' :: dropTrail y := by
  unfold dropTrail at hy ⊢
  rw [List.reverse_append, List.reverse_cons]
  rw [show y.reverse ++ ['\n'] ++ x.reverse = y.reverse ++ (['\n'] ++ x.reverse) by
    simp [List.append_assoc]]
  rw [List.dropWhile_append]
  have hne : (y.reverse.dropWhile wsChar).isEmpty = false := by
    cases hdw : y.reverse.dropWhile wsChar with
    | nil => exact absurd (by rw [hdw]; rfl) hy
    | cons a b => rfl
  rw [if_neg (by rw [hne]; simp)]
  rw [List.reverse_append]
  simp

theorem joinLines_cons_of_ne (x : List Char) {l : List (List Char)} (h : l ≠ []) :
    joinLines (x :: l) = x ++ '\n' :: joinLines l := by
  cases l with
  | nil => exact absurd rfl h
  | cons y t => rfl

theorem dropWhile_ws_header (l a : List Char) (h : l = "Trip to **".data ++ a) :
    List.dropWhile wsChar l = l := by
  subst h
  show List.dropWhile wsChar ('T' :: ("rip to **".data ++ a)) = _
  rw [List.dropWhile_cons_of_neg (by decide)]
  rfl

theorem benign_not_T {ln : List Char} (h : benignLine ln) (q : List Char) :
    List.isPrefixOf ('T' :: q) ln = false := by
  rcases h with rfl | ⟨c, u, rfl, hc⟩
  · rfl
  · show (('T' : Char) == c && List.isPrefixOf q u) = false
    rcases hc with rfl | rfl | rfl | rfl
    · rw [show (('T' : Char) == '*') = false from by decide]; simp
    · rw [show (('T' : Char) == '-') = false from by decide]; simp
    · rw [show (('T' : Char) == 'H') = false from by decide]; simp
    · rw [show (('T' : Char) == ' ') = false from by decide]; simp

theorem isPrefixOf_self_append (p t : List Char) : List.isPrefixOf p (p ++ t) = true :=
  List.isPrefixOf_iff_prefix.mpr (List.prefix_append p t)

theorem isPrefixOf_Ta_Ti (x y : List Char) :
    List.isPrefixOf ('T' :: 'r' :: 'a' :: x) ('T' :: 'r' :: 'i' :: y) = false := by
  show (('T' : Char) == 'T' && (('r' : Char) == 'r' &&
      ((('a' : Char) == 'i') && List.isPrefixOf x y))) = false
  rw [show (('a' : Char) == 'i') = false from by decide]
  simp

theorem isPrefixOf_ing_er (x y : List Char) :
    List.isPrefixOf ('T' :: 'r' :: 'a' :: 'v' :: 'e' :: 'l' :: 'i' :: x)
      ('T' :: 'r' :: 'a' :: 'v' :: 'e' :: 'l' :: 'e' :: y) = false := by
  show (('T' : Char) == 'T' && (('r' : Char) == 'r' && (('a' : Char) == 'a' &&
      (('v' : Char) == 'v' && (('e' : Char) == 'e' && (('l' : Char) == 'l' &&
      ((('i' : Char) == 'e') && List.isPrefixOf x y))))))) = false
  rw [show (('i' : Char) == 'e') = false from by decide]
  simp

theorem isPrefixOf_er_ing (x y : List Char) :
    List.isPrefixOf ('T' :: 'r' :: 'a' :: 'v' :: 'e' :: 'l' :: 'e' :: x)
      ('T' :: 'r' :: 'a' :: 'v' :: 'e' :: 'l' :: 'i' :: y) = false := by
  show (('T' : Char) == 'T' && (('r' : Char) == 'r' && (('a' : Char) == 'a' &&
      (('v' : Char) == 'v' && (('e' : Char) == 'e' && (('l' : Char) == 'l' &&
      ((('e' : Char) == 'i') && List.isPrefixOf x y))))))) = false
  rw [show (('e' : Char) == 'i') = false from by decide]
  simp

theorem headerTemplate_splitNL (destination Fs Is : String) (n : Nat)
    (hd : noNL destination.data) (hF : noNL Fs.data) (hI : noNL Is.data) :
    ∃ RL : List (List Char),
      splitNL (trimS (headerTemplate destination Fs Is n)).data
        = ("Trip to **" ++ destination ++ "**  ").data :: Fs.data :: Is.data :: [] :: RL ∧
      ∀ ln ∈ RL, benignLine ln := by
  obtain ⟨LS, hLSne, hD, hLS⟩ := itinerary_chunks destination hd n
  set Td := ("Trip to **" ++ destination ++ "**  ").data with hTdDef
  set Z := "Here’s your detailed itinerary:".data ++
    '\n' :: (joinLines LS ++ '\n' :: "    ".data) with hZdef
  have hTdno : noNL Td := by
    rw [hTdDef, String.data_append, String.data_append]
    exact noNL_append (noNL_append (by decide) hd) (by decide)
  have hZmem : splitNL Z
      = "Here’s your detailed itinerary:".data :: (LS ++ ["    ".data]) := by
    rw [hZdef]
    have hjj : "Here’s your detailed itinerary:".data ++
        '\n' :: (joinLines LS ++ '\n' :: "    ".data)
        = joinLines ("Here’s your detailed itinerary:".data :: (LS ++ ["    ".data])) := by
      rw [joinLines_cons_of_ne _ (by simp)]
      rw [joinLines_append LS ["    ".data] hLSne (by simp)]
      rfl
    rw [hjj]
    apply splitNL_joinLines
    · simp
    · intro l hl
      rcases List.mem_cons.mp hl with rfl | hl2
      · decide
      · rcases List.mem_append.mp hl2 with hl3 | hl4
        · exact (hLS l hl3).1
        · simp only [List.mem_singleton] at hl4
          rw [hl4]
          decide
  have hZbenign : ∀ ln ∈ splitNL Z, benignLine ln := by
    intro ln hln
    rw [hZmem] at hln
    rcases List.mem_cons.mp hln with rfl | hln2
    · exact Or.inr ⟨'H', "ere’s your detailed itinerary:".data, rfl,
        Or.inr (Or.inr (Or.inl rfl))⟩
    · rcases List.mem_append.mp hln2 with h3 | h4
      · exact (hLS ln h3).2
      · simp only [List.mem_singleton] at h4
        rw [h4]
        exact Or.inr ⟨' ', "   ".data, rfl, Or.inr (Or.inr (Or.inr rfl))⟩
  have hmemH : 'H' ∈ Z := by
    rw [hZdef]
    exact List.mem_append_left _ (by decide)
  have hZne' : dropTrail Z ≠ [] := dropTrail_ne_nil hmemH (by decide)
  have l1 : ("\nTrip to **" : String).data = '\n' :: "Trip to **".data := rfl
  have l2 : ("**  \n" : String).data = "**  ".data ++ ['\n'] := rfl
  have l3 : ("\n" : String).data = ['\n'] := rfl
  have l4 : ("\nHere’s your detailed itinerary:\n" : String).data
      = '\n' :: ("Here’s your detailed itinerary:".data ++ ['\n']) := rfl
  have l5 : ("\n    " : String).data = '\n' :: "    ".data := rfl
  have hA : (headerTemplate destination Fs Is n).data
      = '\n' :: (Td ++ '\n' :: (Fs.data ++ '\n' :: (Is.data ++ '\n' :: ('\n' :: Z)))) := by
    rw [hTdDef, hZdef]
    simp [headerTemplate, l1, l2, l3, l4, l5, hD, String.data_append,
      List.append_assoc, List.cons_append, List.singleton_append]
  have htc : trimC (headerTemplate destination Fs Is n).data
      = dropTrail (Td ++ '\n' :: (Fs.data ++ '\n' :: (Is.data ++ '\n' :: ('\n' :: Z)))) := by
    rw [hA]
    show dropTrail (List.dropWhile wsChar
      ('\n' :: (Td ++ '\n' :: (Fs.data ++ '\n' :: (Is.data ++ '\n' :: ('\n' :: Z)))))) = _
    rw [List.dropWhile_cons_of_pos (by decide)]
    rw [dropWhile_ws_header
      (Td ++ '\n' :: (Fs.data ++ '\n' :: (Is.data ++ '\n' :: ('\n' :: Z))))
      (destination.data ++ ("**  ".data ++
        '\n' :: (Fs.data ++ '\n' :: (Is.data ++ '\n' :: ('\n' :: Z)))))
      (by rw [hTdDef]; simp [String.data_append, List.append_assoc])]
  have hB : Td ++ '\n' :: (Fs.data ++ '\n' :: (Is.data ++ '\n' :: ('\n' :: Z)))
      = (Td ++ '\n' :: (Fs.data ++ '\n' :: (Is.data ++ ['\n']))) ++ '\n' :: Z := by
    simp [List.append_assoc]
  have hdt : dropTrail (Td ++ '\n' :: (Fs.data ++ '\n' :: (Is.data ++ '\n' :: ('\n' :: Z))))
      = Td ++ '\n' :: (Fs.data ++ '\n' :: (Is.data ++ '\n' :: ('\n' :: dropTrail Z))) := by
    rw [hB, dropTrail_chunk hZne']
    simp [List.append_assoc]
  refine ⟨splitNL (dropTrail Z), ?_, dropTrail_lines_benign hZbenign⟩
  show splitNL (trimC (headerTemplate destination Fs Is n).data) = _
  rw [htc, hdt]
  rw [splitNL_chunk _ hTdno, splitNL_chunk _ hF, splitNL_chunk _ hI]
  rw [show splitNL ('\n' :: dropTrail Z) = [] :: splitNL (dropTrail Z) from by simp [splitNL]]

theorem headerTemplate_lineStartB (destination Fs Is : String) (n : Nat) (q : List Char)
    (hd : noNL destination.data) (hF : noNL Fs.data) (hI : noNL Is.data)
    (hT : List.isPrefixOf ('T' :: q) (("Trip to **" ++ destination ++ "**  ").data) = false) :
    lineStartB (trimS (headerTemplate destination Fs Is n)).data ('T' :: q)
      = (List.isPrefixOf ('T' :: q) Fs.data || List.isPrefixOf ('T' :: q) Is.data) := by
  obtain ⟨RL, hsp, hRL⟩ := headerTemplate_splitNL destination Fs Is n hd hF hI
  unfold lineStartB
  rw [hsp]
  simp only [List.any_cons]
  rw [hT]
  rw [show List.isPrefixOf ('T' :: q) ([] : List Char) = false from rfl]
  have hany : RL.any (fun ln => List.isPrefixOf ('T' :: q) ln) = false := by
    rw [List.any_eq_false]
    intro ln hln
    simp [benign_not_T (hRL ln hln) q]
  rw [hany]
  simp

/-- C9: the generated itinerary's header has a companions line (a rendered
line starting `Traveling with: `) exactly when `friends` was provided, and an
interests line (starting `Traveler interests: `) exactly when `interests` was
provided — for any destination and joined lists free of newlines. -/
theorem c9_header_lines (destination : String) (ostart oendT : Option Int)
    (interests friends : Option (List String))
    (hd : noNL destination.data)
    (hf : ∀ fs, friends = some fs → noNL (String.intercalate ", " fs).data)
    (hi : ∀ ins, interests = some ins → noNL (String.intercalate ", " ins).data) :
    lineStartB (fullItinerary destination ostart oendT interests friends).data
        "Traveling with: ".data = friends.isSome ∧
    lineStartB (fullItinerary destination ostart oendT interests friends).data
        "Traveler interests: ".data = interests.isSome := by
  cases friends with
  | none =>
    cases interests with
    | none =>
      have h1 := headerTemplate_lineStartB destination "" "" (numDays ostart oendT)
        "raveling with: ".data hd (by decide) (by decide) (isPrefixOf_Ta_Ti _ _)
      have h2 := headerTemplate_lineStartB destination "" "" (numDays ostart oendT)
        "raveler interests: ".data hd (by decide) (by decide) (isPrefixOf_Ta_Ti _ _)
      exact ⟨h1.trans (by decide), h2.trans (by decide)⟩
    | some ins =>
      have hIs : noNL ("Traveler interests: " ++ String.intercalate ", " ins).data :=
        noNL_data_append (by decide) (hi ins rfl)
      have h1 := headerTemplate_lineStartB destination ""
        ("Traveler interests: " ++ String.intercalate ", " ins) (numDays ostart oendT)
        "raveling with: ".data hd (by decide) hIs (isPrefixOf_Ta_Ti _ _)
      have h2 := headerTemplate_lineStartB destination ""
        ("Traveler interests: " ++ String.intercalate ", " ins) (numDays ostart oendT)
        "raveler interests: ".data hd (by decide) hIs (isPrefixOf_Ta_Ti _ _)
      constructor
      · refine h1.trans ?_
        have hpre : List.isPrefixOf ('T' :: "raveling with: ".data)
            (("Traveler interests: " ++ String.intercalate ", " ins).data) = false :=
          isPrefixOf_ing_er "ng with: ".data
            ("r interests: ".data ++ (String.intercalate ", " ins).data)
        rw [hpre]
        decide
      · refine h2.trans ?_
        have hpre : List.isPrefixOf ('T' :: "raveler interests: ".data)
            (("Traveler interests: " ++ String.intercalate ", " ins).data) = true :=
          isPrefixOf_self_append "Traveler interests: ".data
            (String.intercalate ", " ins).data
        rw [hpre]
        simp
  | some fs =>
    have hFs : noNL ("Traveling with: " ++ String.intercalate ", " fs).data :=
      noNL_data_append (by decide) (hf fs rfl)
    cases interests with
    | none =>
      have h1 := headerTemplate_lineStartB destination
        ("Traveling with: " ++ String.intercalate ", " fs) "" (numDays ostart oendT)
        "raveling with: ".data hd hFs (by decide) (isPrefixOf_Ta_Ti _ _)
      have h2 := headerTemplate_lineStartB destination
        ("Traveling with: " ++ String.intercalate ", " fs) "" (numDays ostart oendT)
        "raveler interests: ".data hd hFs (by decide) (isPrefixOf_Ta_Ti _ _)
      constructor
      · refine h1.trans ?_
        have hpre : List.isPrefixOf ('T' :: "raveling with: ".data)
            (("Traveling with: " ++ String.intercalate ", " fs).data) = true :=
          isPrefixOf_self_append "Traveling with: ".data
            (String.intercalate ", " fs).data
        rw [hpre]
        simp
      · refine h2.trans ?_
        have hpre : List.isPrefixOf ('T' :: "raveler interests: ".data)
            (("Traveling with: " ++ String.intercalate ", " fs).data) = false :=
          isPrefixOf_er_ing "r interests: ".data
            ("ng with: ".data ++ (String.intercalate ", " fs).data)
        rw [hpre]
        decide
    | some ins =>
      have hIs : noNL ("Traveler interests: " ++ String.intercalate ", " ins).data :=
        noNL_data_append (by decide) (hi ins rfl)
      have h1 := headerTemplate_lineStartB destination
        ("Traveling with: " ++ String.intercalate ", " fs)
        ("Traveler interests: " ++ String.intercalate ", " ins) (numDays ostart oendT)
        "raveling with: ".data hd hFs hIs (isPrefixOf_Ta_Ti _ _)
      have h2 := headerTemplate_lineStartB destination
        ("Traveling with: " ++ String.intercalate ", " fs)
        ("Traveler interests: " ++ String.intercalate ", " ins) (numDays ostart oendT)
        "raveler interests: ".data hd hFs hIs (isPrefixOf_Ta_Ti _ _)
      constructor
      · refine h1.trans ?_
        have hpre : List.isPrefixOf ('T' :: "raveling with: ".data)
            (("Traveling with: " ++ String.intercalate ", " fs).data) = true :=
          isPrefixOf_self_append "Traveling with: ".data
            (String.intercalate ", " fs).data
        rw [hpre]
        simp
      · refine h2.trans ?_
        have hpreA : List.isPrefixOf ('T' :: "raveler interests: ".data)
            (("Traveling with: " ++ String.intercalate ", " fs).data) = false :=
          isPrefixOf_er_ing "r interests: ".data
            ("ng with: ".data ++ (String.intercalate ", " fs).data)
        have hpreB : List.isPrefixOf ('T' :: "raveler interests: ".data)
            (("Traveler interests: " ++ String.intercalate ", " ins).data) = true :=
          isPrefixOf_self_append "Traveler interests: ".data
            (String.intercalate ", " ins).data
        rw [hpreA, hpreB]
        simp

theorem c9_header_lines_witness :
    lineStartB (fullItinerary "Atlantis" none none none (some ["Ana"])).data
        "Traveling with: ".data = true ∧
    lineStartB (fullItinerary "Atlantis" none none none (some ["Ana"])).data
        "Traveler interests: ".data = false :=
  c9_header_lines "Atlantis" none none none (some ["Ana"]) (by decide)
    (by
      intro fs h
      injection h with h2
      subst h2
      decide)
    (fun ins h => Option.noConfusion h)
